import Mathlib

/-!
# AstraSync ACP bridge: descriptor normaliser, trust scorer, registration

A shallow embedding of `src/acp-parser.js`, `src/bridge.js` and `src/config.js`.

JavaScript values are embedded as the inductive type `JSVal`.  The numbers
inside a descriptor are integers; the numbers the trust scorer computes with
are `JSNum`: `NaN`, the infinities and the finite doubles as rationals.  Strings
are Unicode strings whose `length` is counted in UTF-16 code units, and objects
are association lists read by own-property lookup.  A promise that rejects and
a `throw` are both an `Except.error`.

Built-ins of the JavaScript runtime that the program calls but does not define
(`JSON.parse`, `JSON.stringify`, the conversion of strings and arrays to numbers,
the rounding of sums, `fetch`, the clock, `process.env`) are parameters of the
embedded functions: every theorem holds for all of their possible behaviours.
The conversion of an object to a primitive is embedded, with its TypeError.
Console output is a side channel and is left out.
-/

namespace AstraSync

/-! ## JavaScript values -/

/-- A JavaScript value: the JSON data model extended with `undefined`. -/
inductive JSVal where
  | undefined
  | null
  | bool (b : Bool)
  | num (n : Int)
  | str (s : String)
  | arr (items : List JSVal)
  | obj (fields : List (String × JSVal))

/-- What a `throw` (or a rejected promise) carries. -/
inductive JSError where
  /-- The value of `new Error(message)`. -/
  | error (message : String)
  /-- Reading property `property` of `undefined` or `null`. -/
  | typeError (property : String)
  /-- An exception raised inside a runtime built-in (`fetch`, `response.json()`). -/
  | runtime (message : String)
  deriving DecidableEq, Repr

namespace JSVal

/-- The ToBoolean conversion: what `if (v)`, `v || w` and `!v` test. -/
def truthy : JSVal → Bool
  | undefined => false
  | null => false
  | bool b => b
  | num n => n != 0
  | str s => s != ""
  | arr _ => true
  | obj _ => true

/-- The expression `a || b` (both operands here are free of side effects). -/
def or (a b : JSVal) : JSVal :=
  if a.truthy then a else b

/-- The predicate `Array.isArray(v)`. -/
def isArray : JSVal → Bool
  | arr _ => true
  | _ => false

/-- Whether the value is `undefined` or `null`. -/
def isNullish : JSVal → Bool
  | undefined => true
  | null => true
  | _ => false

/-- The number of UTF-16 code units of a string: the value of its `length`. -/
def utf16Length (s : String) : Nat :=
  (s.data.map fun c => if c.val < 0x10000 then 1 else 2).sum

/-- Reading property `key` of a value that is neither `undefined` nor `null`.
Objects answer with their own property (the first entry of that name) and with
`undefined` when they have none; arrays and strings have a `length`.  None of
the property names the program reads is an array index or a member of the
built-in prototypes other than `length`. -/
def readProp (v : JSVal) (key : String) : JSVal :=
  match v with
  | obj fields => (fields.lookup key).getD undefined
  | arr items => if key = "length" then num items.length else undefined
  | str s => if key = "length" then num (utf16Length s) else undefined
  | _ => undefined

/-- The expression `v.key`: a TypeError on `undefined` and `null`. -/
def getProp (v : JSVal) (key : String) : Except JSError JSVal :=
  if v.isNullish then .error (.typeError key) else .ok (v.readProp key)

/-- The expression `v?.key`. -/
def optProp (v : JSVal) (key : String) : JSVal :=
  if v.isNullish then undefined else v.readProp key

end JSVal

open JSVal

/-! ## `src/acp-parser.js` -/

/-- The `metadata` member of the record built by `parseACPAgent`. -/
structure Metadata where
  source : String
  originalId : JSVal
  framework : JSVal
  endpoint : JSVal

/-- The record `parsed` built by `parseACPAgent`. -/
structure ParsedAgent where
  id : JSVal
  name : JSVal
  description : JSVal
  version : JSVal
  capabilities : List JSVal
  authentication : JSVal
  skills : JSVal
  metadata : Metadata

/-- The callback `skill => skill.id || skill.name` of `extractCapabilities`. -/
def skillCapability (skill : JSVal) : Except JSError JSVal := do
  let id ← skill.getProp "id"
  if id.truthy then pure id else skill.getProp "name"

/-- The call `skills.map(skill => skill.id || skill.name)` on a dense array: it
stops at the first element whose callback throws. -/
def mapSkills : List JSVal → Except JSError (List JSVal)
  | [] => pure []
  | skill :: rest => do
    let c ← skillCapability skill
    let cs ← mapSkills rest
    pure (c :: cs)

/-- The function `extractCapabilities` of `src/acp-parser.js`. -/
def extractCapabilities (agentData : JSVal) : Except JSError (List JSVal) := do
  let capabilities ← agentData.getProp "capabilities"
  match capabilities with
  | arr items => pure items
  | _ =>
    let capability ← agentData.getProp "capability"
    if capability.truthy then pure [capability]
    else
      let skills ← agentData.getProp "skills"
      match skills with
      | arr items => mapSkills items
      | _ => pure [str "acp-compliant"]

/-- The function `parseACPAgent` of `src/acp-parser.js`; `jsonParse` is the
built-in `JSON.parse`, `none` standing for its SyntaxError. -/
def parseACPAgent (jsonParse : String → Option JSVal) (agentData : JSVal) :
    Except JSError ParsedAgent := do
  let agentData ← match agentData with
    | str s =>
      match jsonParse s with
      | some v => pure v
      | none => throw (JSError.error "Invalid ACP agent data: Not valid JSON")
    | v => pure v
  let id ← agentData.getProp "id"
  let agentId ← agentData.getProp "agentId"
  let name ← agentData.getProp "name"
  let agentName ← agentData.getProp "agentName"
  let description ← agentData.getProp "description"
  let agentDescription ← agentData.getProp "agentDescription"
  let version ← agentData.getProp "version"
  let capabilities ← extractCapabilities agentData
  let authentication ← agentData.getProp "authentication"
  let skills ← agentData.getProp "skills"
  let framework ← agentData.getProp "framework"
  let endpoint ← agentData.getProp "endpoint"
  let url ← agentData.getProp "url"
  pure {
    id := (id.or agentId).or (str "unknown")
    name := (name.or agentName).or (str "Unnamed ACP Agent")
    description := (description.or agentDescription).or (str "An ACP-compliant agent")
    version := version.or (str "1.0.0")
    capabilities := capabilities
    authentication := authentication.or (obj [])
    skills := skills.or (arr [])
    metadata := {
      source := "acp"
      originalId := id.or agentId
      framework := framework.or (str "beeai")
      endpoint := (endpoint.or url).or null } }

/-! ## `src/config.js` -/

/-- The object `process.env`: the value of each environment variable that is set. -/
abbrev Env := String → Option String

/-- The expression `x || fallback` for an `x` that is a string or is missing
(`undefined`, or `null` for a defaulted parameter): the empty string is falsy. -/
def strOr (x : Option String) (fallback : String) : String :=
  match x with
  | some s => if s != "" then s else fallback
  | none => fallback

namespace config

/-- The method `config.getApiUrl` of `src/config.js`. -/
def getApiUrl (env : Env) : String :=
  strOr (env "ASTRASYNC_API_URL") "https://astrasync.ai/api"

/-- The method `config.getDeveloperEmail` of `src/config.js`. -/
def getDeveloperEmail (env : Env) : String :=
  strOr (env "DEVELOPER_EMAIL") "developer@example.com"

end config

/-! ## `src/bridge.js` -/

/-- An instance of the class `ACPBridge`. -/
structure ACPBridge where
  apiUrl : String
  developerEmail : String

/-- The constructor of `ACPBridge`.  An argument that is left out (or passed as
`null`) is `none`. -/
def ACPBridge.constructor (env : Env) (apiUrl developerEmail : Option String) : ACPBridge :=
  { apiUrl := strOr apiUrl (config.getApiUrl env)
    developerEmail := strOr developerEmail (config.getDeveloperEmail env) }

/-! ### Numbers

A JavaScript number is `NaN`, an infinity or a finite double, which is a
rational number.  What the runtime computes for the conversions and for the
rounding of a sum is a parameter, `Numerics`. -/

/-- A JavaScript number. -/
inductive JSNum where
  | nan
  | negInf
  | fin (q : ℚ)
  | posInf

/-- The numeric built-ins of the runtime. -/
structure Numerics where
  /-- The ToNumber conversion of strings (the parsing of a numeric literal) and
  of arrays (the elements joined, then parsed); it can throw on an array. -/
  toNumberBuiltin : JSVal → Except JSError JSNum
  /-- The double nearest to an exact sum. -/
  round : ℚ → ℚ
  /-- The decimal text `Number::toString` of a double that is not an integer. -/
  render : ℚ → String
  /-- Rounding to the nearest double is monotone. -/
  round_mono : ∀ x y : ℚ, x ≤ y → round x ≤ round y
  /-- Every integer up to 2^53 in magnitude is a double. -/
  round_int : ∀ n : Int, -9007199254740992 ≤ n → n ≤ 9007199254740992 → round n = n

/-- The TypeError of ToPrimitive: "Cannot convert object to primitive value". -/
def notPrimitive : JSError :=
  .runtime "Cannot convert object to primitive value"

/-- The ToNumber conversion.  An object is first converted to a primitive: a
member of a JSON object is never a function, so an own `toString` member
leaves no method to call and the conversion throws a TypeError; otherwise the
built-in `toString` gives "[object Object]", which is `NaN`.  (An own
`valueOf` member changes nothing: the built-in `valueOf` returns the object
itself.) -/
def toNumber (nm : Numerics) : JSVal → Except JSError JSNum
  | .undefined => pure .nan
  | .null => pure (.fin 0)
  | .bool b => pure (.fin (if b then 1 else 0))
  | .num n => pure (.fin n)
  | .obj fields =>
    if (fields.lookup "toString").isSome then throw notPrimitive else pure .nan
  | v => nm.toNumberBuiltin v

/-- The comparison `x > k` of a number with a numeric literal. -/
def JSNum.gt (x : JSNum) (k : Int) : Bool :=
  match x with
  | .nan => false
  | .negInf => false
  | .fin q => decide ((k : ℚ) < q)
  | .posInf => true

/-- The comparison `v > k` of a value with a numeric literal. -/
def gt (nm : Numerics) (v : JSVal) (k : Int) : Except JSError Bool := do
  let x ← toNumber nm v
  pure (x.gt k)

/-- Addition of numbers: the exact sum of two doubles, rounded. -/
def numAdd (nm : Numerics) : JSNum → JSNum → JSNum
  | .nan, _ => .nan
  | _, .nan => .nan
  | .posInf, .negInf => .nan
  | .negInf, .posInf => .nan
  | .posInf, _ => .posInf
  | _, .posInf => .posInf
  | .negInf, _ => .negInf
  | _, .negInf => .negInf
  | .fin a, .fin b => .fin (nm.round (a + b))

/-- The product `x * 2`.  Doubling a double is exact; the overflow of a double
above 2^1023 to `Infinity` is left out, the program takes the minimum of the
product with 10. -/
def numDouble : JSNum → JSNum
  | .nan => .nan
  | .negInf => .negInf
  | .fin q => .fin (q * 2)
  | .posInf => .posInf

/-- The built-in `Math.min` of two numbers: `NaN` when either is. -/
def mathMin : JSNum → JSNum → JSNum
  | .nan, _ => .nan
  | _, .nan => .nan
  | .negInf, _ => .negInf
  | _, .negInf => .negInf
  | .posInf, b => b
  | a, .posInf => a
  | .fin a, .fin b => .fin (min a b)

/-- A number inside a template literal: an integer below 10^21 in magnitude is
printed in decimal. -/
def numToString (nm : Numerics) : JSNum → String
  | .nan => "NaN"
  | .negInf => "-Infinity"
  | .posInf => "Infinity"
  | .fin q =>
    if q.den = 1 ∧ q.num.natAbs < 1000000000000000000000 then toString q.num
    else nm.render q

/-- The method `ACPBridge.calculateTrustScore` of `src/bridge.js`, applied to
the record built by `parseACPAgent`. -/
def calculateTrustScore (nm : Numerics) (agentData : ParsedAgent) :
    Except JSError String := do
  let score : JSNum := .fin 70
  let hasSchemes ← gt nm ((agentData.authentication.optProp "schemes").optProp "length") 0
  let score := if hasSchemes then numAdd nm score (.fin 10) else score
  let hasSkills ← gt nm (agentData.skills.optProp "length") 0
  let score ←
    if hasSkills then do
      let length ← agentData.skills.getProp "length"
      let count ← toNumber nm length
      pure (numAdd nm score (mathMin (numDouble count) (.fin 10)))
    else pure score
  let longDescription ← gt nm (agentData.description.optProp "length") 50
  let score := if longDescription then numAdd nm score (.fin 5) else score
  let score := if agentData.version.truthy then numAdd nm score (.fin 5) else score
  pure ("TEMP-" ++ numToString nm (mathMin score (.fin 100)) ++ "%")

/-! ### Registration -/

/-- What the program reads of the `Response` that `fetch` resolves to:
the HTTP status and the outcome of `await response.json()`, which throws when
the body is not JSON. -/
structure Response where
  status : Int
  json : Except JSError JSVal

/-- The getter `response.ok`: the status is in the range 200 to 299. -/
def Response.ok (r : Response) : Bool :=
  decide (200 ≤ r.status ∧ r.status ≤ 299)

/-- The built-ins of the JavaScript runtime that `src/bridge.js` calls. -/
structure Runtime where
  /-- The function `JSON.parse`; `none` is its SyntaxError. -/
  jsonParse : String → Option JSVal
  /-- The function `JSON.stringify`. -/
  jsonStringify : JSVal → String
  /-- The numeric built-ins. -/
  numerics : Numerics
  /-- The ToString conversion of primitives other than strings and of arrays; it
  can throw on an array. -/
  toStringBuiltin : JSVal → Except JSError String
  /-- The call `fetch(url, init)`, awaited: a response, or a transport failure. -/
  fetch : String → JSVal → Except JSError Response
  /-- The reading number `k` of `new Date().toISOString()` during one call. -/
  now : Nat → String

/-- The ToString conversion: the message of `new Error(v)`, a value in a
template literal.  An object with an own `toString` member cannot be converted
to a primitive; any other is "[object Object]". -/
def jsToString (rt : Runtime) : JSVal → Except JSError String
  | .str s => pure s
  | .obj fields =>
    if (fields.lookup "toString").isSome then throw notPrimitive
    else pure "[object Object]"
  | v => rt.toStringBuiltin v

/-- The member `blockchain` of a registration result. -/
structure Blockchain where
  status : String
  message : String

/-- The member `astraSync` of a registration result. -/
structure AstraSyncRecord where
  agentId : JSVal
  status : JSVal
  trustScore : String
  blockchain : Blockchain
  registeredAt : String

/-- The member `registration` of a registration result. -/
structure Registration where
  email : String
  source : String
  apiVersion : String

/-- The object `enhancedResult` returned by `registerACPAgent`. -/
structure RegistrationResult where
  astraSync : AstraSyncRecord
  original : ParsedAgent
  registration : Registration

/-- The object `parsedAgent.metadata` as a value. -/
def Metadata.toJS (m : Metadata) : JSVal :=
  obj [("source", str m.source), ("originalId", m.originalId),
    ("framework", m.framework), ("endpoint", m.endpoint)]

/-- The object `payload` built by `registerACPAgent`. -/
def registrationPayload (self : ACPBridge) (parsedAgent : ParsedAgent)
    (skillsLength : JSVal) (importedAt : String) : JSVal :=
  obj [
    ("email", str self.developerEmail),
    ("agent", obj [
      ("name", parsedAgent.name),
      ("description", parsedAgent.description),
      ("owner", str self.developerEmail),
      ("capabilities", arr parsedAgent.capabilities),
      ("version", parsedAgent.version),
      ("agentType", str "acp"),
      ("acpId", parsedAgent.id),
      ("acpMetadata", parsedAgent.metadata.toJS),
      ("skills", skillsLength),
      ("authentication", parsedAgent.authentication),
      ("importedAt", str importedAt)])]

/-- The second argument of the `fetch` call of `registerACPAgent`. -/
def registerInit (rt : Runtime) (payload : JSVal) : JSVal :=
  obj [
    ("method", str "POST"),
    ("headers", obj [("Content-Type", str "application/json"), ("x-source", str "acp-bridge")]),
    ("body", str (rt.jsonStringify payload))]

/-- The method `ACPBridge.registerACPAgent` of `src/bridge.js`.  Its `catch`
block logs the error and throws it again unchanged. -/
def registerACPAgent (rt : Runtime) (self : ACPBridge) (agentData : JSVal) :
    Except JSError RegistrationResult := do
  let parsedAgent ← parseACPAgent rt.jsonParse agentData
  let skillsLength ← parsedAgent.skills.getProp "length"
  let payload := registrationPayload self parsedAgent skillsLength (rt.now 0)
  let response ← rt.fetch (self.apiUrl ++ "/v1/register") (registerInit rt payload)
  let result ← response.json
  if !response.ok then do
    let error ← result.getProp "error"
    let message ← jsToString rt
      (error.or (str ("Registration failed: " ++ toString response.status)))
    throw (JSError.error message)
  else do
    let agentId ← result.getProp "agentId"
    let status ← result.getProp "status"
    let trustScore ← calculateTrustScore rt.numerics parsedAgent
    pure {
      astraSync := {
        agentId := agentId
        status := status.or (str "registered")
        trustScore := trustScore
        blockchain := { status := "pending", message := "Blockchain registration queued" }
        registeredAt := rt.now 1 }
      original := parsedAgent
      registration := {
        email := self.developerEmail
        source := "acp-bridge"
        apiVersion := "v1" } }

/-- The method `ACPBridge.verifyAgent` of `src/bridge.js`. -/
def verifyAgent (rt : Runtime) (self : ACPBridge) (agentId : JSVal) :
    Except JSError JSVal := do
  let id ← jsToString rt agentId
  let response ← rt.fetch (self.apiUrl ++ "/v1/verify/" ++ id)
    (obj [("headers", obj [("x-source", str "acp-bridge")])])
  if !response.ok then
    throw (JSError.error ("Verification failed: " ++ toString response.status))
  else response.json

/-! ## Reference definitions for the statements -/

/-- The record that `parseACPAgent` assembles from the decoded descriptor
`agentData` and the result `capabilities` of `extractCapabilities`. -/
def assembleParsed (agentData : JSVal) (capabilities : List JSVal) : ParsedAgent :=
  { id := ((agentData.readProp "id").or (agentData.readProp "agentId")).or (str "unknown")
    name := ((agentData.readProp "name").or (agentData.readProp "agentName")).or
      (str "Unnamed ACP Agent")
    description := ((agentData.readProp "description").or
      (agentData.readProp "agentDescription")).or (str "An ACP-compliant agent")
    version := (agentData.readProp "version").or (str "1.0.0")
    capabilities := capabilities
    authentication := (agentData.readProp "authentication").or (obj [])
    skills := (agentData.readProp "skills").or (arr [])
    metadata := {
      source := "acp"
      originalId := (agentData.readProp "id").or (agentData.readProp "agentId")
      framework := (agentData.readProp "framework").or (str "beeai")
      endpoint := ((agentData.readProp "endpoint").or (agentData.readProp "url")).or null } }

/-- The capabilities of the agent returned by `parseACPAgent`, or its error. -/
def parsedCapabilities (jsonParse : String → Option JSVal) (agentData : JSVal) :
    Except JSError (List JSVal) :=
  (parseACPAgent jsonParse agentData).map ParsedAgent.capabilities

/-- The field names that `parseACPAgent` and `extractCapabilities` read. -/
def recognisedFields : List String :=
  ["id", "agentId", "name", "agentName", "description", "agentDescription", "version",
    "capabilities", "capability", "authentication", "skills", "framework", "endpoint", "url"]

/-- The projection of one skill in the words of the specification: its `id` if
the skill has one, else its `name`, else an absent entry. -/
def specSkillCapability : JSVal → JSVal
  | .obj fields =>
    match fields.lookup "id" with
    | some id => id
    | none => (fields.lookup "name").getD undefined
  | _ => undefined

/-- The capability derivation in the words of the specification, where
a field is present when the descriptor has it. -/
def specCapabilities (fields : List (String × JSVal)) : List JSVal :=
  match fields.lookup "capabilities" with
  | some (.arr items) => items
  | _ =>
    match fields.lookup "capability" with
    | some capability => [capability]
    | none =>
      match fields.lookup "skills" with
      | some (.arr skills) => skills.map specSkillCapability
      | _ => [str "acp-compliant"]

/-- The projection `skill.id || skill.name` of a skill that is neither
`undefined` nor `null`. -/
def skillProjection (skill : JSVal) : JSVal :=
  (skill.readProp "id").or (skill.readProp "name")

/-- The CanonicalAgent record of the specification: the record of
`parseACPAgent` with every member of its documented type. -/
structure CanonicalAgent where
  id : String
  name : String
  description : String
  version : String
  capabilities : List String
  authentication : List (String × JSVal)
  skills : List JSVal
  metadata : Metadata

/-- A canonical agent as the object that `calculateTrustScore` receives. -/
def CanonicalAgent.toParsed (c : CanonicalAgent) : ParsedAgent :=
  { id := str c.id
    name := str c.name
    description := str c.description
    version := str c.version
    capabilities := c.capabilities.map str
    authentication := obj c.authentication
    skills := arr c.skills
    metadata := c.metadata }

/-- The test "`authentication.schemes` exists and has length > 0" on a
canonical agent: its truth value, or the TypeError of the comparison. -/
def CanonicalAgent.hasSchemes (nm : Numerics) (c : CanonicalAgent) : Except JSError Bool :=
  match c.authentication.lookup "schemes" with
  | some schemes => gt nm (schemes.optProp "length") 0
  | none => pure false

/-- The number `n` of the specification: base 70, the four bonuses, capped at
100; `hasSchemes` is the outcome of the test on `authentication.schemes`. -/
def specTrustScore (hasSchemes : Bool) (c : CanonicalAgent) : Int :=
  min 100 (70
    + (if hasSchemes then 10 else 0)
    + min ((c.skills.length : Int) * 2) 10
    + (if 50 < utf16Length c.description then 5 else 0)
    + (if c.version ≠ "" then 5 else 0))

/-- The agent of the worked example: schemes `["oauth"]`, three skills, a
description of 60 characters and version "2.0". -/
def exampleAgent : CanonicalAgent :=
  { id := "agent-1"
    name := "Example"
    description := "123456789012345678901234567890123456789012345678901234567890"
    version := "2.0"
    capabilities := ["acp-compliant"]
    authentication := [("schemes", arr [str "oauth"])]
    skills := [obj [("id", str "a")], obj [("id", str "b")], obj [("id", str "c")]]
    metadata := {
      source := "acp", originalId := str "agent-1", framework := str "beeai", endpoint := null } }

/-- The example agent without its authentication schemes. -/
def exampleAgentNoSchemes : CanonicalAgent :=
  { exampleAgent with authentication := [] }

/-- A JSON object that cannot be converted to a primitive:
`{valueOf: 1, toString: 1}`. -/
def opaqueObject : JSVal :=
  obj [("valueOf", num 1), ("toString", num 1)]

/-- The example agent with `authentication = {schemes: {length: {valueOf: 1,
toString: 1}}}`. -/
def exampleAgentOpaqueSchemes : CanonicalAgent :=
  { exampleAgent with authentication := [("schemes", obj [("length", opaqueObject)])] }

/-- The agent `exampleAgentOpaqueSchemes` with one skill more. -/
def exampleAgentOpaqueSchemesMoreSkills : CanonicalAgent :=
  { exampleAgentOpaqueSchemes with skills := obj [("id", str "d")] :: exampleAgent.skills }

/-- Numeric built-ins for the examples: no rounding, every string and array is
`NaN`. -/
def exactNumerics : Numerics :=
  { toNumberBuiltin := fun _ => pure .nan
    round := fun q => q
    render := fun _ => "?"
    round_mono := fun _ _ h => h
    round_int := fun _ _ _ => rfl }

/-- The value `agentData.authentication?.schemes?.length`. -/
def schemesLength (a : ParsedAgent) : JSVal :=
  (a.authentication.optProp "schemes").optProp "length"

/-- The value `agentData.skills?.length`. -/
def skillsLength (a : ParsedAgent) : JSVal :=
  a.skills.optProp "length"

/-- The value `agentData.description?.length`. -/
def descriptionLength (a : ParsedAgent) : JSVal :=
  a.description.optProp "length"

/-- The number that `calculateTrustScore` prints when the three lengths it
compares convert to the numbers `x1`, `x2` and `x3`. -/
def scoreOf (nm : Numerics) (x1 x2 x3 : JSNum) (version : Bool) : JSNum :=
  let score : JSNum := .fin 70
  let score := if x1.gt 0 then numAdd nm score (.fin 10) else score
  let score := if x2.gt 0 then numAdd nm score (mathMin (numDouble x2) (.fin 10)) else score
  let score := if x3.gt 50 then numAdd nm score (.fin 5) else score
  let score := if version then numAdd nm score (.fin 5) else score
  mathMin score (.fin 100)

/-- The canonical agent that `parseACPAgent` returns for the empty descriptor. -/
def defaultAgent : CanonicalAgent :=
  { id := "unknown"
    name := "Unnamed ACP Agent"
    description := "An ACP-compliant agent"
    version := "1.0.0"
    capabilities := ["acp-compliant"]
    authentication := []
    skills := []
    metadata := { source := "acp", originalId := undefined, framework := str "beeai", endpoint := null } }

/-- Numeric built-ins for the example of a fractional length: the string "0.3"
is the number 3/10, sums are exact and 378/5 is printed "75.6". -/
def decimalNumerics : Numerics :=
  { toNumberBuiltin := fun v =>
      match v with
      | .str s => if s = "0.3" then pure (.fin (3 / 10)) else pure .nan
      | _ => pure .nan
    round := fun q => q
    render := fun q => if q = 378 / 5 then "75.6" else "?"
    round_mono := fun _ _ h => h
    round_int := fun _ _ _ => rfl }

/-- The agent parsed from the descriptor `{skills: {length: "0.3"}}`. -/
def fractionalSkillsAgent : ParsedAgent :=
  { defaultAgent.toParsed with skills := obj [("length", str "0.3")] }

/-- What `parseACPAgent` does with the decoded descriptor. -/
def normaliseDecoded (agentData : JSVal) : Except JSError ParsedAgent :=
  if agentData.isNullish then .error (.typeError "id")
  else (extractCapabilities agentData).map (assembleParsed agentData)

/-- The arguments of the `fetch` call that `registerACPAgent` issues for the
parsed agent. -/
def registerRequest (rt : Runtime) (self : ACPBridge) (parsedAgent : ParsedAgent) :
    Except JSError Response :=
  rt.fetch (self.apiUrl ++ "/v1/register")
    (registerInit rt
      (registrationPayload self parsedAgent (parsedAgent.skills.readProp "length") (rt.now 0)))

/-- A runtime whose network answers every request with `response`. -/
def answering (response : Response) : Runtime :=
  { jsonParse := fun _ => none
    jsonStringify := fun _ => ""
    numerics := exactNumerics
    toStringBuiltin := fun _ => pure ""
    fetch := fun _ _ => .ok response
    now := fun _ => "2025-01-01T00:00:00.000Z" }

/-- A bridge instance for the examples. -/
def exampleBridge : ACPBridge :=
  { apiUrl := "https://astrasync.ai/api", developerEmail := "developer@example.com" }

/-- A descriptor for the examples. -/
def exampleDescriptor : List (String × JSVal) :=
  [("id", str "agent-7"), ("capability", str "search"),
    ("skills", arr [obj [("id", str "s1")], obj [("name", str "s2")]]),
    ("authentication", obj [("schemes", arr [str "oauth"])]), ("priority", num (-3))]

/-! ## A reference JSON codec

The functions `JSON.stringify` and `JSON.parse` on the values of the model:
texts are compact, numbers are integers, strings hold no surrogates. -/

namespace Json

/-- The quotation mark. -/
def quoteMark : Char := Char.ofNat 34

/-- The reverse solidus. -/
def backslash : Char := Char.ofNat 92

/-- The hexadecimal digit of a number below 16, in lower case. -/
def hexDigit (n : Nat) : Char :=
  if n < 10 then Char.ofNat (48 + n) else Char.ofNat (87 + n)

/-- The decimal digit of a number below 10. -/
def digitChar (n : Nat) : Char := Char.ofNat (48 + n)

/-- One character inside a quoted JSON string, as `JSON.stringify` writes it. -/
def escapeChar (c : Char) : List Char :=
  if c = quoteMark then [backslash, quoteMark]
  else if c = backslash then [backslash, backslash]
  else if c.toNat = 8 then [backslash, 'b']
  else if c.toNat = 9 then [backslash, 't']
  else if c.toNat = 10 then [backslash, 'n']
  else if c.toNat = 12 then [backslash, 'f']
  else if c.toNat = 13 then [backslash, 'r']
  else if c.toNat < 32 then
    [backslash, 'u', '0', '0', hexDigit (c.toNat / 16), hexDigit (c.toNat % 16)]
  else [c]

/-- The characters of a string, escaped. -/
def escapeChars : List Char → List Char
  | [] => []
  | c :: cs => escapeChar c ++ escapeChars cs

/-- A quoted JSON string. -/
def quote (s : String) : List Char :=
  quoteMark :: (escapeChars s.data ++ [quoteMark])

/-- The decimal digits of a natural number; `fuel` bounds their count. -/
def natChars : Nat → Nat → List Char
  | 0, _ => []
  | fuel + 1, n =>
    if n < 10 then [digitChar n] else natChars fuel (n / 10) ++ [digitChar (n % 10)]

/-- The decimal text of an integer. -/
def intChars (n : Int) : List Char :=
  match n with
  | .ofNat k => natChars (k + 1) k
  | .negSucc k => '-' :: natChars (k + 2) (k + 1)

/-- Texts joined by commas. -/
def joinCommas : List (List Char) → List Char
  | [] => []
  | [x] => x
  | x :: rest => x ++ (',' :: joinCommas rest)

mutual

/-- The text of a value.  An `undefined` inside an array is written `null`, a
member whose value is `undefined` is left out; an `undefined` at the top, for
which `JSON.stringify` gives no text, is written `null` too. -/
def write : JSVal → List Char
  | .undefined => ['n', 'u', 'l', 'l']
  | .null => ['n', 'u', 'l', 'l']
  | .bool true => ['t', 'r', 'u', 'e']
  | .bool false => ['f', 'a', 'l', 's', 'e']
  | .num n => intChars n
  | .str s => quote s
  | .arr items => '[' :: (joinCommas (writeItems items) ++ [']'])
  | .obj fields => '\x7b' :: (joinCommas (writeFields fields) ++ ['\x7d'])

/-- The texts of the elements of an array. -/
def writeItems : List JSVal → List (List Char)
  | [] => []
  | v :: rest => write v :: writeItems rest

/-- The texts of the members of an object. -/
def writeFields : List (String × JSVal) → List (List Char)
  | [] => []
  | (_, .undefined) :: rest => writeFields rest
  | (k, v) :: rest => (quote k ++ (':' :: write v)) :: writeFields rest

end

/-- The function `JSON.stringify` on one argument. -/
def stringify (v : JSVal) : String :=
  String.mk (write v)

/-- JSON white space. -/
def isSpace (c : Char) : Bool :=
  c.toNat = 32 || c.toNat = 9 || c.toNat = 10 || c.toNat = 13

/-- The text after its leading white space. -/
def skipSpace : List Char → List Char
  | [] => []
  | c :: cs => if isSpace c then skipSpace cs else c :: cs

/-- The value of a hexadecimal digit. -/
def hexValue (c : Char) : Option Nat :=
  if 48 ≤ c.toNat ∧ c.toNat ≤ 57 then some (c.toNat - 48)
  else if 97 ≤ c.toNat ∧ c.toNat ≤ 102 then some (c.toNat - 87)
  else if 65 ≤ c.toNat ∧ c.toNat ≤ 70 then some (c.toNat - 55)
  else none

/-- The character of a `\uXXXX` escape; a surrogate is outside the model. -/
def unicodeEscape (a b c d : Char) : Option Char := do
  let x ← hexValue a
  let y ← hexValue b
  let z ← hexValue c
  let w ← hexValue d
  let n := ((x * 16 + y) * 16 + z) * 16 + w
  if 0xD800 ≤ n ∧ n ≤ 0xDFFF then none else some (Char.ofNat n)

/-- The character of a two-character escape. -/
def simpleEscape (c : Char) : Option Char :=
  if c = quoteMark then some quoteMark
  else if c = backslash then some backslash
  else if c = '/' then some '/'
  else if c = 'b' then some (Char.ofNat 8)
  else if c = 't' then some (Char.ofNat 9)
  else if c = 'n' then some (Char.ofNat 10)
  else if c = 'f' then some (Char.ofNat 12)
  else if c = 'r' then some (Char.ofNat 13)
  else none

/-- The character of the escape that follows a reverse solidus, and the text
after the escape. -/
def readEscape : List Char → Option (Char × List Char)
  | [] => none
  | e :: rest =>
    if e = 'u' then
      match rest with
      | a :: b :: c :: d :: rest4 =>
        match unicodeEscape a b c d with
        | some ch => some (ch, rest4)
        | none => none
      | _ => none
    else
      match simpleEscape e with
      | some ch => some (ch, rest)
      | none => none

/-- The characters of a quoted string, read after its opening mark, and the
text that follows the closing mark; `fuel` bounds the length of the text. -/
def readStringAux : Nat → List Char → Option (List Char × List Char)
  | 0, _ => none
  | _ + 1, [] => none
  | fuel + 1, c :: cs =>
    if c = quoteMark then some ([], cs)
    else if c = backslash then
      match readEscape cs with
      | none => none
      | some (ch, r) =>
        match readStringAux fuel r with
        | some (s, r2) => some (ch :: s, r2)
        | none => none
    else if c.toNat < 32 then none
    else
      match readStringAux fuel cs with
      | some (s, r) => some (c :: s, r)
      | none => none

/-- The characters of a quoted string, read after its opening mark. -/
def readString (cs : List Char) : Option (List Char × List Char) :=
  readStringAux (cs.length + 1) cs

/-- Whether a character is a decimal digit. -/
def isDigit (c : Char) : Bool :=
  48 ≤ c.toNat && c.toNat ≤ 57

/-- The number written by a list of decimal digits. -/
def digitsValue (ds : List Char) : Nat :=
  ds.foldl (fun a c => a * 10 + (c.toNat - 48)) 0

/-- Whether the text goes on with a fraction or an exponent. -/
def startsFraction : List Char → Bool
  | c :: _ => c = '.' || c = 'e' || c = 'E'
  | [] => false

/-- Whether a text can follow the digits of an integer: it starts with neither
a digit nor a fraction nor an exponent. -/
def stopsNumber : List Char → Bool
  | [] => true
  | c :: rest => !isDigit c && !startsFraction (c :: rest)

/-- A natural number without sign: digits with no leading zero, and neither
fraction nor exponent (those numbers are outside the model). -/
def readNat (cs : List Char) : Option (Nat × List Char) :=
  let ds := cs.takeWhile isDigit
  let rest := cs.dropWhile isDigit
  if ds = [] then none
  else if ds.head? = some '0' ∧ ds.length ≠ 1 then none
  else if startsFraction rest then none
  else some (digitsValue ds, rest)

/-- An integer. -/
def readInt (cs : List Char) : Option (Int × List Char) :=
  match cs with
  | [] => none
  | c :: rest =>
    if c = '-' then
      match readNat rest with
      | some (n, r) => some (-(n : Int), r)
      | none => none
    else
      match readNat (c :: rest) with
      | some (n, r) => some ((n : Int), r)
      | none => none

/-- Setting member `k` of an object under construction: a repeated name
replaces the earlier value. -/
def setField (fields : List (String × JSVal)) (k : String) (v : JSVal) :
    List (String × JSVal) :=
  match fields with
  | [] => [(k, v)]
  | (k0, v0) :: rest => if k0 = k then (k0, v) :: rest else (k0, v0) :: setField rest k v

/-- The object built from the members in the order they are read. -/
def buildObject (members : List (String × JSVal)) : List (String × JSVal) :=
  members.foldl (fun acc m => setField acc m.1 m.2) []

/-- The text after the given word, when the text starts with it. -/
def dropWord : List Char → List Char → Option (List Char)
  | [], cs => some cs
  | _ :: _, [] => none
  | w :: ws, c :: cs => if c = w then dropWord ws cs else none

mutual

/-- A value at the head of a text that starts with no white space, and the
text after it; `fuel` bounds the length of the text of the value. -/
def readValue : Nat → List Char → Option (JSVal × List Char)
  | 0, _ => none
  | _ + 1, [] => none
  | fuel + 1, c :: rest =>
    if c = quoteMark then
      match readString rest with
      | some (s, r) => some (.str (String.mk s), r)
      | none => none
    else if c = '[' then
      match skipSpace rest with
      | [] => none
      | d :: r =>
        if d = ']' then some (.arr [], r)
        else
          match readItems fuel (d :: r) with
          | some (items, r2) => some (.arr items, r2)
          | none => none
    else if c = '\x7b' then
      match skipSpace rest with
      | [] => none
      | d :: r =>
        if d = '\x7d' then some (.obj [], r)
        else
          match readMembers fuel (d :: r) with
          | some (members, r2) => some (.obj (buildObject members), r2)
          | none => none
    else if c = 'n' then
      match dropWord ['u', 'l', 'l'] rest with
      | some r => some (.null, r)
      | none => none
    else if c = 't' then
      match dropWord ['r', 'u', 'e'] rest with
      | some r => some (.bool true, r)
      | none => none
    else if c = 'f' then
      match dropWord ['a', 'l', 's', 'e'] rest with
      | some r => some (.bool false, r)
      | none => none
    else
      match readInt (c :: rest) with
      | some (n, r) => some (.num n, r)
      | none => none

/-- The elements of an array that is not empty, up to its closing bracket. -/
def readItems : Nat → List Char → Option (List JSVal × List Char)
  | 0, _ => none
  | fuel + 1, cs =>
    match readValue fuel cs with
    | none => none
    | some (v, r) =>
      match skipSpace r with
      | [] => none
      | d :: r2 =>
        if d = ',' then
          match readItems fuel (skipSpace r2) with
          | some (vs, r3) => some (v :: vs, r3)
          | none => none
        else if d = ']' then some ([v], r2)
        else none

/-- The members of an object that is not empty, up to its closing brace. -/
def readMembers : Nat → List Char → Option (List (String × JSVal) × List Char)
  | 0, _ => none
  | _ + 1, [] => none
  | fuel + 1, c :: rest =>
    if c = quoteMark then
      match readString rest with
      | none => none
      | some (k, r) =>
        match skipSpace r with
        | [] => none
        | d :: r1 =>
          if d = ':' then
            match readValue fuel (skipSpace r1) with
            | none => none
            | some (v, r2) =>
              match skipSpace r2 with
              | [] => none
              | e :: r3 =>
                if e = ',' then
                  match readMembers fuel (skipSpace r3) with
                  | some (ms, r4) => some ((String.mk k, v) :: ms, r4)
                  | none => none
                else if e = '\x7d' then some ([(String.mk k, v)], r3)
                else none
          else none
    else none

end

/-- The function `JSON.parse`: one value between optional white space. -/
def parse (s : String) : Option JSVal :=
  match readValue (s.length + 1) (skipSpace s.data) with
  | some (v, rest) => if skipSpace rest = [] then some v else none
  | none => none

mutual

/-- Whether a value is JSON-representable: it holds no `undefined`, its numbers
are integers that a double holds exactly, and the names of the members of each
of its objects are distinct. -/
def representable : JSVal → Bool
  | .undefined => false
  | .null => true
  | .bool _ => true
  | .num n => decide (-9007199254740992 ≤ n ∧ n ≤ 9007199254740992)
  | .str _ => true
  | .arr items => representableItems items
  | .obj fields => representableFields fields && decide ((fields.map Prod.fst).Nodup)

/-- Whether the elements of an array are JSON-representable. -/
def representableItems : List JSVal → Bool
  | [] => true
  | v :: rest => representable v && representableItems rest

/-- Whether the values of the members of an object are JSON-representable. -/
def representableFields : List (String × JSVal) → Bool
  | [] => true
  | (_, v) :: rest => representable v && representableFields rest

end

/-- A character that can start the text of a value. -/
def StartsValue (c : Char) : Prop :=
  isSpace c = false ∧ c ≠ ']' ∧ c ≠ '\x7d'

/-- With this much fuel the reader inverts the writing of every representable
value whose text is no longer than the fuel. -/
def ReadsValue (fuel : Nat) : Prop :=
  ∀ v rest, representable v = true → (write v).length ≤ fuel → stopsNumber rest = true →
    readValue fuel (write v ++ rest) = some (v, rest)

/-- With this much fuel the reader inverts the writing of the elements of
every array that is not empty. -/
def ReadsItems (fuel : Nat) : Prop :=
  ∀ v vs rest, representableItems (v :: vs) = true →
    (joinCommas (writeItems (v :: vs))).length + 1 ≤ fuel →
    readItems fuel (joinCommas (writeItems (v :: vs)) ++ ']' :: rest) = some (v :: vs, rest)

/-- With this much fuel the reader inverts the writing of the members of
every object that is not empty. -/
def ReadsMembers (fuel : Nat) : Prop :=
  ∀ k v fs rest, representableFields ((k, v) :: fs) = true →
    (joinCommas (writeFields ((k, v) :: fs))).length + 1 ≤ fuel →
    readMembers fuel (joinCommas (writeFields ((k, v) :: fs)) ++ '\x7d' :: rest)
      = some ((k, v) :: fs, rest)

end Json
/-! ## Theorems: the descriptor normaliser -/

theorem getProp_obj (fields : List (String × JSVal)) (key : String) :
    (obj fields).getProp key = .ok ((obj fields).readProp key) := rfl

theorem getProp_of_not_nullish (v : JSVal) (key : String) (h : v.isNullish = false) :
    v.getProp key = .ok (v.readProp key) := by
  simp [JSVal.getProp, h]

theorem skillCapability_of_not_nullish (skill : JSVal) (h : skill.isNullish = false) :
    skillCapability skill = .ok (skillProjection skill) := by
  unfold skillCapability skillProjection JSVal.or
  simp only [getProp_of_not_nullish _ _ h, bind, Except.bind, pure, Except.pure]
  split <;> rfl

theorem mapSkills_of_not_nullish (skills : List JSVal)
    (h : ∀ skill ∈ skills, skill.isNullish = false) :
    mapSkills skills = .ok (skills.map skillProjection) := by
  induction skills with
  | nil => rfl
  | cons skill rest ih =>
    have h1 := skillCapability_of_not_nullish skill (h skill (List.mem_cons_self _ _))
    have h2 := ih (fun s hs => h s (List.mem_cons_of_mem _ hs))
    simp [mapSkills, h1, h2, bind, Except.bind, pure, Except.pure]

theorem mapSkills_length (skills caps : List JSVal) (h : mapSkills skills = .ok caps) :
    caps.length = skills.length := by
  induction skills generalizing caps with
  | nil =>
    simp [mapSkills, pure, Except.pure] at h
    simp [← h]
  | cons skill rest ih =>
    simp only [mapSkills, bind, Except.bind, pure, Except.pure] at h
    cases h1 : skillCapability skill with
    | error e => simp [h1] at h
    | ok c =>
      cases h2 : mapSkills rest with
      | error e => simp [h1, h2] at h
      | ok cs =>
        simp [h1, h2] at h
        simp [← h, ih cs h2]

/-- On a decoded descriptor that is an object, `parseACPAgent` is
`extractCapabilities` followed by the assembly of the record. -/
theorem parseACPAgent_obj (jsonParse : String → Option JSVal)
    (fields : List (String × JSVal)) :
    parseACPAgent jsonParse (obj fields)
      = (extractCapabilities (obj fields)).map (assembleParsed (obj fields)) := by
  unfold parseACPAgent
  simp only [getProp_obj, bind, Except.bind, pure, Except.pure]
  cases extractCapabilities (obj fields) <;> rfl

theorem parsedCapabilities_obj (jsonParse : String → Option JSVal)
    (fields : List (String × JSVal)) :
    parsedCapabilities jsonParse (obj fields) = extractCapabilities (obj fields) := by
  unfold parsedCapabilities
  rw [parseACPAgent_obj]
  cases extractCapabilities (obj fields) <;> rfl

/-! ## Theorems: the reference JSON codec -/

namespace Json

theorem hexValue_hexDigit (k : Nat) (h : k < 16) : hexValue (hexDigit k) = some k := by
  interval_cases k <;> rfl

theorem unicodeEscape_control (c : Char) (h : c.toNat < 32) :
    unicodeEscape '0' '0' (hexDigit (c.toNat / 16)) (hexDigit (c.toNat % 16)) = some c := by
  have h0 : hexValue '0' = some 0 := rfl
  have h1 := hexValue_hexDigit (c.toNat / 16) (by omega)
  have h2 := hexValue_hexDigit (c.toNat % 16) (by omega)
  unfold unicodeEscape
  simp only [h0, h1, h2, bind, Option.bind]
  have e : ((0 * 16 + 0) * 16 + c.toNat / 16) * 16 + c.toNat % 16 = c.toNat := by omega
  rw [e, if_neg (by omega), Char.ofNat_toNat]

theorem readStringAux_simple (e ch : Char) (fuel : Nat) (tail : List Char) (hu : e ≠ 'u')
    (he : simpleEscape e = some ch) :
    readStringAux (fuel + 1) (backslash :: e :: tail)
      = (readStringAux fuel tail).map fun p => (ch :: p.1, p.2) := by
  have hbq : backslash ≠ quoteMark := by decide
  have hr : readEscape (e :: tail) = some (ch, tail) := by
    simp [readEscape, hu, he]
  rw [readStringAux]
  simp only [hbq, if_false, if_true, hr]
  cases readStringAux fuel tail with
  | none => rfl
  | some p => rfl

theorem readStringAux_unicode (a b c d ch : Char) (fuel : Nat) (tail : List Char)
    (he : unicodeEscape a b c d = some ch) :
    readStringAux (fuel + 1) (backslash :: 'u' :: a :: b :: c :: d :: tail)
      = (readStringAux fuel tail).map fun p => (ch :: p.1, p.2) := by
  have hbq : backslash ≠ quoteMark := by decide
  have hr : readEscape ('u' :: a :: b :: c :: d :: tail) = some (ch, tail) := by
    simp [readEscape, he]
  rw [readStringAux]
  simp only [hbq, if_false, if_true, hr]
  cases readStringAux fuel tail with
  | none => rfl
  | some p => rfl

theorem char_of_toNat (c : Char) (n : Nat) (h : c.toNat = n) : Char.ofNat n = c := by
  rw [← h, Char.ofNat_toNat]

/-- What the reader makes of one escaped character. -/
theorem readStringAux_escapeChar (c : Char) (fuel : Nat) (tail : List Char) :
    readStringAux (fuel + 1) (escapeChar c ++ tail)
      = (readStringAux fuel tail).map fun p => (c :: p.1, p.2) := by
  unfold escapeChar
  split
  · rename_i h
    subst h
    exact readStringAux_simple quoteMark quoteMark fuel tail (by decide) rfl
  split
  · rename_i h
    subst h
    exact readStringAux_simple backslash backslash fuel tail (by decide) rfl
  split
  · rename_i h
    have := readStringAux_simple 'b' (Char.ofNat 8) fuel tail (by decide) rfl
    rwa [char_of_toNat c 8 h] at this
  split
  · rename_i h
    have := readStringAux_simple 't' (Char.ofNat 9) fuel tail (by decide) rfl
    rwa [char_of_toNat c 9 h] at this
  split
  · rename_i h
    have := readStringAux_simple 'n' (Char.ofNat 10) fuel tail (by decide) rfl
    rwa [char_of_toNat c 10 h] at this
  split
  · rename_i h
    have := readStringAux_simple 'f' (Char.ofNat 12) fuel tail (by decide) rfl
    rwa [char_of_toNat c 12 h] at this
  split
  · rename_i h
    have := readStringAux_simple 'r' (Char.ofNat 13) fuel tail (by decide) rfl
    rwa [char_of_toNat c 13 h] at this
  split
  · rename_i h
    exact readStringAux_unicode '0' '0' _ _ c fuel tail (unicodeEscape_control c h)
  · rename_i h1 h2 _ _ _ _ _ h3
    show readStringAux (fuel + 1) (c :: tail) = _
    rw [readStringAux]
    simp only [h1, h2, h3, if_false]
    cases readStringAux fuel tail with
    | none => rfl
    | some p => rfl

/-- The reader inverts the escaping of a string. -/
theorem readStringAux_escapeChars (cs : List Char) (fuel : Nat) (rest : List Char)
    (h : cs.length < fuel) :
    readStringAux fuel (escapeChars cs ++ quoteMark :: rest) = some (cs, rest) := by
  induction cs generalizing fuel with
  | nil =>
    cases fuel with
    | zero => omega
    | succ f => simp [escapeChars, readStringAux]
  | cons c cs ih =>
    cases fuel with
    | zero => omega
    | succ f =>
      simp only [escapeChars, List.append_assoc]
      rw [readStringAux_escapeChar, ih f (by simpa using h)]
      rfl

theorem length_le_escapeChars (cs : List Char) : cs.length ≤ (escapeChars cs).length := by
  induction cs with
  | nil => simp [escapeChars]
  | cons c cs ih =>
    have : 1 ≤ (escapeChar c).length := by
      unfold escapeChar
      repeat' split
      all_goals simp
    simp only [escapeChars, List.length_append, List.length_cons]
    omega

/-- The reader inverts the quoting of a string. -/
theorem readString_quote (s : String) (rest : List Char) :
    readString (escapeChars s.data ++ quoteMark :: rest) = some (s.data, rest) := by
  unfold readString
  apply readStringAux_escapeChars
  have := length_le_escapeChars s.data
  simp only [List.length_append, List.length_cons]
  omega

theorem digitChar_toNat (k : Nat) (h : k < 10) : (digitChar k).toNat = 48 + k := by
  interval_cases k <;> rfl

theorem isDigit_digitChar (k : Nat) (h : k < 10) : isDigit (digitChar k) = true := by
  interval_cases k <;> rfl

theorem digitsValue_append (ds : List Char) (d : Char) :
    digitsValue (ds ++ [d]) = digitsValue ds * 10 + (d.toNat - 48) := by
  simp [digitsValue, List.foldl_append]

/-- The digits of a number: all of them digits, at least one, writing the
number, without a leading zero. -/
theorem natChars_spec (fuel n : Nat) (h : n < fuel) :
    (∀ c ∈ natChars fuel n, isDigit c = true) ∧ digitsValue (natChars fuel n) = n ∧
      natChars fuel n ≠ [] ∧ ((natChars fuel n).head? = some '0' → n = 0) := by
  induction fuel generalizing n with
  | zero => omega
  | succ f ih =>
    unfold natChars
    by_cases hn : n < 10
    · simp only [hn, if_true]
      refine ⟨?_, ?_, by simp, ?_⟩
      · intro c hc
        simp at hc
        subst hc
        exact isDigit_digitChar n hn
      · simp [digitsValue, digitChar_toNat n hn]
      · intro h0
        simp at h0
        interval_cases n <;> first | rfl | (exfalso; revert h0; decide)
    · simp only [hn, if_false]
      obtain ⟨h1, h2, h3, h4⟩ := ih (n / 10) (by omega)
      refine ⟨?_, ?_, by simp, ?_⟩
      · intro c hc
        simp at hc
        rcases hc with hc | hc
        · exact h1 c hc
        · subst hc
          exact isDigit_digitChar _ (by omega)
      · rw [digitsValue_append, h2, digitChar_toNat _ (by omega)]
        omega
      · intro h0
        rw [List.head?_append_of_ne_nil _ h3] at h0
        have := h4 h0
        omega

theorem natChars_zero_length (fuel n : Nat) (h : n < fuel)
    (h0 : (natChars fuel n).head? = some '0') : (natChars fuel n).length = 1 := by
  have hn := (natChars_spec fuel n h).2.2.2 h0
  subst hn
  cases fuel with
  | zero => omega
  | succ f => simp [natChars]

theorem takeWhile_stops (rest : List Char) (h : stopsNumber rest = true) :
    rest.takeWhile isDigit = [] ∧ rest.dropWhile isDigit = rest ∧ startsFraction rest = false := by
  cases rest with
  | nil => simp [startsFraction]
  | cons c tl =>
    simp [stopsNumber] at h
    simp [List.takeWhile, List.dropWhile, h.1, h.2]

/-- The reader of natural numbers inverts the writing of digits. -/
theorem readNat_natChars (fuel n : Nat) (h : n < fuel) (rest : List Char)
    (hrest : stopsNumber rest = true) :
    readNat (natChars fuel n ++ rest) = some (n, rest) := by
  obtain ⟨h1, h2, h3, h4⟩ := natChars_spec fuel n h
  obtain ⟨r1, r2, r3⟩ := takeWhile_stops rest hrest
  have ht : (natChars fuel n ++ rest).takeWhile isDigit = natChars fuel n := by
    rw [List.takeWhile_append_of_pos h1, r1, List.append_nil]
  have hd : (natChars fuel n ++ rest).dropWhile isDigit = rest := by
    rw [List.dropWhile_append_of_pos h1, r2]
  unfold readNat
  simp only [ht, hd, h3, if_false, r3, Bool.false_eq_true, h2]
  rw [if_neg]
  intro ⟨hz, hl⟩
  exact hl (natChars_zero_length fuel n h hz)

theorem ne_of_isDigit (c d : Char) (hc : isDigit c = true) (hd : isDigit d = false) : c ≠ d := by
  rintro rfl
  simp [hc] at hd

/-- The reader of integers inverts their writing. -/
theorem readInt_intChars (n : Int) (rest : List Char) (hrest : stopsNumber rest = true) :
    readInt (intChars n ++ rest) = some (n, rest) := by
  cases n with
  | ofNat k =>
    obtain ⟨h1, _, h3, _⟩ := natChars_spec (k + 1) k (by omega)
    have hr := readNat_natChars (k + 1) k (by omega) rest hrest
    simp only [intChars]
    cases hd : natChars (k + 1) k with
    | nil => exact absurd hd h3
    | cons c tl =>
      rw [hd] at hr h1
      have hc : c ≠ '-' := ne_of_isDigit c '-' (h1 c (by simp)) (by decide)
      simp only [List.cons_append] at hr ⊢
      simp only [readInt, hc, if_false, hr]
      rfl
  | negSucc k =>
    have hr := readNat_natChars (k + 2) (k + 1) (by omega) rest hrest
    simp only [intChars, List.cons_append, readInt, if_true, hr]
    rfl

theorem isSpace_of_isDigit (c : Char) (h : isDigit c = true) : isSpace c = false := by
  simp [isDigit] at h
  simp [isSpace]
  omega

/-- The first character of an integer: a digit or the minus sign. -/
theorem intChars_head (n : Int) :
    ∃ c tl, intChars n = c :: tl ∧ (isDigit c = true ∨ c = '-') := by
  cases n with
  | ofNat k =>
    obtain ⟨h1, _, h3, _⟩ := natChars_spec (k + 1) k (by omega)
    simp only [intChars]
    cases hd : natChars (k + 1) k with
    | nil => exact absurd hd h3
    | cons c tl =>
      rw [hd] at h1
      exact ⟨c, tl, rfl, Or.inl (h1 c (by simp))⟩
  | negSucc k => exact ⟨'-', _, rfl, Or.inr rfl⟩

theorem startsValue_of_digit_or_minus (c : Char) (h : isDigit c = true ∨ c = '-') :
    StartsValue c := by
  rcases h with h | h
  · exact ⟨isSpace_of_isDigit c h, ne_of_isDigit c _ h (by decide),
      ne_of_isDigit c _ h (by decide)⟩
  · subst h
    exact ⟨by decide, by decide, by decide⟩

/-- The text of a value starts with a character that is neither white space nor
a closing bracket. -/
theorem write_head (v : JSVal) : ∃ c tl, write v = c :: tl ∧ StartsValue c := by
  cases v with
  | undefined => exact ⟨'n', _, by rw [write], by decide, by decide, by decide⟩
  | null => exact ⟨'n', _, by rw [write], by decide, by decide, by decide⟩
  | bool b =>
    cases b
    · exact ⟨'f', _, by rw [write], by decide, by decide, by decide⟩
    · exact ⟨'t', _, by rw [write], by decide, by decide, by decide⟩
  | num n =>
    obtain ⟨c, tl, h, hc⟩ := intChars_head n
    exact ⟨c, tl, by rw [write, h], startsValue_of_digit_or_minus c hc⟩
  | str s => exact ⟨quoteMark, _, by rw [write, quote], by decide, by decide, by decide⟩
  | arr items => exact ⟨'[', _, by rw [write], by decide, by decide, by decide⟩
  | obj fields => exact ⟨'\x7b', _, by rw [write], by decide, by decide, by decide⟩

theorem skipSpace_cons (c : Char) (cs : List Char) (h : isSpace c = false) :
    skipSpace (c :: cs) = c :: cs := by
  simp [skipSpace, h]

theorem setField_fresh (acc : List (String × JSVal)) (k : String) (v : JSVal)
    (h : k ∉ acc.map Prod.fst) : setField acc k v = acc ++ [(k, v)] := by
  induction acc with
  | nil => rfl
  | cons m ms ih =>
    obtain ⟨k0, v0⟩ := m
    simp only [List.map_cons, List.mem_cons, not_or] at h
    have hne : ¬ k0 = k := fun e => h.1 e.symm
    simp only [setField, hne, if_false, ih h.2, List.cons_append]

theorem foldl_setField_fresh (fields acc : List (String × JSVal))
    (h : ((acc ++ fields).map Prod.fst).Nodup) :
    fields.foldl (fun a m => setField a m.1 m.2) acc = acc ++ fields := by
  induction fields generalizing acc with
  | nil => simp
  | cons m ms ih =>
    have hk : m.1 ∉ acc.map Prod.fst := by
      simp only [List.map_append, List.map_cons] at h
      have := (List.nodup_append.mp h).2.2
      intro hm
      exact this hm (List.mem_cons_self _ _)
    simp only [List.foldl_cons]
    rw [setField_fresh acc m.1 m.2 hk]
    have e : acc ++ [(m.1, m.2)] ++ ms = acc ++ m :: ms := by simp
    rw [ih (acc ++ [(m.1, m.2)]) (by rw [e]; exact h), e]

/-- Members with distinct names are the object they build. -/
theorem buildObject_nodup (fields : List (String × JSVal))
    (h : (fields.map Prod.fst).Nodup) : buildObject fields = fields := by
  unfold buildObject
  rw [foldl_setField_fresh fields [] (by simpa using h)]
  rfl

theorem writeFields_cons (k : String) (v : JSVal) (rest : List (String × JSVal))
    (h : representable v = true) :
    writeFields ((k, v) :: rest) = (quote k ++ (':' :: write v)) :: writeFields rest := by
  cases v <;> first | (simp [representable] at h; done) | (rw [writeFields]; intro e; cases e)

theorem string_mk_data (s : String) : String.mk s.data = s := rfl

theorem skipSpace_write (v : JSVal) (rest : List Char) :
    skipSpace (write v ++ rest) = write v ++ rest := by
  obtain ⟨c, tl, h, hc⟩ := write_head v
  rw [h, List.cons_append, skipSpace_cons _ _ hc.1]

theorem joinCommas_writeItems_cons (v w : JSVal) (ws : List JSVal) :
    joinCommas (writeItems (v :: w :: ws))
      = write v ++ (',' :: joinCommas (writeItems (w :: ws))) := by
  simp [writeItems, joinCommas]

theorem joinCommas_writeItems_single (v : JSVal) :
    joinCommas (writeItems [v]) = write v := by
  simp [writeItems, joinCommas]

/-- The text of a non-empty sequence of elements starts like a value. -/
theorem joinCommas_writeItems_head (v : JSVal) (vs : List JSVal) :
    ∃ c tl, joinCommas (writeItems (v :: vs)) = c :: tl ∧ StartsValue c := by
  obtain ⟨c, tl, h, hc⟩ := write_head v
  cases vs with
  | nil => exact ⟨c, tl, by rw [joinCommas_writeItems_single, h], hc⟩
  | cons w ws => exact ⟨c, _, by rw [joinCommas_writeItems_cons, h, List.cons_append], hc⟩

theorem readItems_step (fuel : Nat) (ihA : ReadsValue fuel) (ihB : ReadsItems fuel) :
    ReadsItems (fuel + 1) := by
  intro v vs rest hrep hlen
  simp only [representableItems, Bool.and_eq_true] at hrep
  cases vs with
  | nil =>
    rw [joinCommas_writeItems_single] at hlen ⊢
    have hv := ihA v (']' :: rest) hrep.1 (by omega) (by rfl)
    rw [readItems]
    simp only [hv]
    rfl
  | cons w ws =>
    rw [joinCommas_writeItems_cons] at hlen ⊢
    simp only [List.length_append, List.length_cons] at hlen
    have hv := ihA v (',' :: (joinCommas (writeItems (w :: ws)) ++ ']' :: rest)) hrep.1
      (by omega) (by rfl)
    have hw := ihB w ws rest hrep.2 (by omega)
    obtain ⟨c, tl, hc, hs⟩ := joinCommas_writeItems_head w ws
    have hskip : skipSpace (joinCommas (writeItems (w :: ws)) ++ ']' :: rest)
        = joinCommas (writeItems (w :: ws)) ++ ']' :: rest := by
      rw [hc, List.cons_append, skipSpace_cons _ _ hs.1]
    rw [readItems]
    simp only [List.append_assoc, List.cons_append, hv]
    have h1 : skipSpace (',' :: (joinCommas (writeItems (w :: ws)) ++ ']' :: rest))
        = ',' :: (joinCommas (writeItems (w :: ws)) ++ ']' :: rest) :=
      skipSpace_cons _ _ (by decide)
    simp only [h1, if_true, hskip, hw]

theorem joinCommas_cons_cons (x y : List Char) (r : List (List Char)) :
    joinCommas (x :: y :: r) = x ++ (',' :: joinCommas (y :: r)) := by
  simp [joinCommas]

/-- The text of a non-empty sequence of members starts with a quotation mark. -/
theorem joinCommas_writeFields_head (k : String) (v : JSVal) (fs : List (String × JSVal))
    (h : representableFields ((k, v) :: fs) = true) :
    ∃ tl, joinCommas (writeFields ((k, v) :: fs)) = quoteMark :: tl := by
  simp only [representableFields, Bool.and_eq_true] at h
  rw [writeFields_cons k v fs h.1]
  cases hf : writeFields fs with
  | nil => exact ⟨_, rfl⟩
  | cons y r => exact ⟨_, rfl⟩

theorem readMembers_step (fuel : Nat) (ihA : ReadsValue fuel) (ihC : ReadsMembers fuel) :
    ReadsMembers (fuel + 1) := by
  intro k v fs rest hrep hlen
  have hrep0 := hrep
  simp only [representableFields, Bool.and_eq_true] at hrep
  rw [writeFields_cons k v fs hrep.1] at hlen ⊢
  have hkey : ∀ tail, readString (escapeChars k.data ++ quoteMark :: tail)
      = some (k.data, tail) := fun tail => readString_quote k tail
  have hcolon : ∀ tail, skipSpace (':' :: tail) = ':' :: tail :=
    fun tail => skipSpace_cons _ _ (by decide)
  cases fs with
  | nil =>
    simp only [writeFields, joinCommas, List.length_append, List.length_cons, quote] at hlen
    have hv := ihA v ('\x7d' :: rest) hrep.1 (by omega) (by rfl)
    simp only [writeFields, joinCommas, quote, List.cons_append, List.append_assoc,
      List.nil_append]
    rw [readMembers]
    simp only [if_true, hkey, hcolon, skipSpace_write, hv]
    rfl
  | cons m ms =>
    obtain ⟨k2, v2⟩ := m
    obtain ⟨tl, htl⟩ := joinCommas_writeFields_head k2 v2 ms hrep.2
    have hnext := ihC k2 v2 ms rest hrep.2
    cases hw : writeFields ((k2, v2) :: ms) with
    | nil => rw [hw] at htl; simp [joinCommas] at htl
    | cons y r =>
      rw [hw] at htl hnext hlen
      rw [joinCommas_cons_cons] at hlen ⊢
      simp only [List.length_append, List.length_cons, quote] at hlen
      have hv := ihA v (',' :: (joinCommas (y :: r) ++ '\x7d' :: rest)) hrep.1
        (by omega) (by rfl)
      have hn := hnext (by omega)
      have hskip : skipSpace (joinCommas (y :: r) ++ '\x7d' :: rest)
          = joinCommas (y :: r) ++ '\x7d' :: rest := by
        rw [htl, List.cons_append, skipSpace_cons _ _ (by decide)]
      have hcomma : skipSpace (',' :: (joinCommas (y :: r) ++ '\x7d' :: rest))
          = ',' :: (joinCommas (y :: r) ++ '\x7d' :: rest) :=
        skipSpace_cons _ _ (by decide)
      simp only [quote, List.cons_append, List.append_assoc, List.nil_append]
      rw [readMembers]
      simp only [if_true, hkey, hcolon, skipSpace_write, hv, hcomma, hskip, hn]

theorem readValue_step (fuel : Nat) (ihB : ReadsItems fuel) (ihC : ReadsMembers fuel) :
    ReadsValue (fuel + 1) := by
  intro v rest hrep hlen hrest
  cases v with
  | undefined => simp [representable] at hrep
  | null => rfl
  | bool b => cases b <;> rfl
  | num n =>
    obtain ⟨c, tl, hc, hd⟩ := intChars_head n
    have hi := readInt_intChars n rest hrest
    simp only [write]
    rw [hc, List.cons_append] at hi ⊢
    have h1 : c ≠ quoteMark := by
      rcases hd with hd | hd
      · exact ne_of_isDigit c _ hd (by decide)
      · subst hd; decide
    have h2 : c ≠ '[' := by
      rcases hd with hd | hd
      · exact ne_of_isDigit c _ hd (by decide)
      · subst hd; decide
    have h3 : c ≠ '\x7b' := by
      rcases hd with hd | hd
      · exact ne_of_isDigit c _ hd (by decide)
      · subst hd; decide
    have h4 : c ≠ 'n' := by
      rcases hd with hd | hd
      · exact ne_of_isDigit c _ hd (by decide)
      · subst hd; decide
    have h5 : c ≠ 't' := by
      rcases hd with hd | hd
      · exact ne_of_isDigit c _ hd (by decide)
      · subst hd; decide
    have h6 : c ≠ 'f' := by
      rcases hd with hd | hd
      · exact ne_of_isDigit c _ hd (by decide)
      · subst hd; decide
    rw [readValue]
    simp only [h1, h2, h3, h4, h5, h6, if_false, hi]
  | str s =>
    have hs := readString_quote s rest
    simp only [write, quote, List.cons_append, List.append_assoc, List.nil_append]
    rw [readValue]
    simp only [if_true, hs]
  | arr items =>
    simp only [write, List.cons_append, List.append_assoc, List.nil_append,
      List.length_cons, List.length_append] at hlen ⊢
    cases items with
    | nil => rfl
    | cons v vs =>
      simp only [representable] at hrep
      have hb := ihB v vs rest hrep (by simpa using hlen)
      obtain ⟨c, tl, hc, hs⟩ := joinCommas_writeItems_head v vs
      rw [hc, List.cons_append] at hb ⊢
      rw [readValue]
      have hq : ('[' : Char) ≠ quoteMark := by decide
      simp only [hq, if_false, if_true, skipSpace_cons _ _ hs.1, hs.2.1, hb]
  | obj fields =>
    simp only [write, List.cons_append, List.append_assoc, List.nil_append,
      List.length_cons, List.length_append] at hlen ⊢
    cases fields with
    | nil => rfl
    | cons m ms =>
      obtain ⟨k, v⟩ := m
      simp only [representable, Bool.and_eq_true, decide_eq_true_eq] at hrep
      have hc := ihC k v ms rest hrep.1 (by simpa using hlen)
      obtain ⟨tl, htl⟩ := joinCommas_writeFields_head k v ms hrep.1
      rw [htl, List.cons_append] at hc ⊢
      rw [readValue]
      have hq : ('\x7b' : Char) ≠ quoteMark := by decide
      have hb : ('\x7b' : Char) ≠ '[' := by decide
      have hqc : quoteMark ≠ '\x7d' := by decide
      simp only [hq, hb, if_false, if_true, skipSpace_cons quoteMark _ (by decide), hqc, hc,
        buildObject_nodup _ hrep.2]

/-- The reader inverts the writing of every representable value. -/
theorem reads_all (fuel : Nat) : ReadsValue fuel ∧ ReadsItems fuel ∧ ReadsMembers fuel := by
  induction fuel with
  | zero =>
    refine ⟨?_, ?_, ?_⟩
    · intro v rest _ hlen _
      obtain ⟨c, tl, h, _⟩ := write_head v
      rw [h] at hlen
      simp at hlen
    · intro v vs rest _ hlen
      omega
    · intro k v fs rest _ hlen
      omega
  | succ f ih =>
    exact ⟨readValue_step f ih.2.1 ih.2.2, readItems_step f ih.1 ih.2.1,
      readMembers_step f ih.1 ih.2.2⟩

/-- The reference codec round-trips: parsing the text of a representable value
gives the value back. -/
theorem parse_stringify (v : JSVal) (h : representable v = true) :
    parse (stringify v) = some v := by
  have hr := (reads_all ((write v).length + 1)).1 v [] h (by omega) rfl
  unfold parse stringify
  have hl : (String.mk (write v)).length = (write v).length := rfl
  have hs : skipSpace (write v) = write v := by
    have := skipSpace_write v []
    simpa using this
  simp only [hl, hs]
  rw [List.append_nil] at hr
  rw [hr]
  rfl

end Json

/-- With any decoder that gives back the descriptor object from a text,
`parseACPAgent` returns on the text what it returns on the object. -/
theorem parseACPAgent_of_decoded (jsonParse : String → Option JSVal) (text : String)
    (fields : List (String × JSVal)) (h : jsonParse text = some (obj fields)) :
    parseACPAgent jsonParse (str text) = parseACPAgent jsonParse (obj fields) := by
  unfold parseACPAgent
  simp only [h]

/-- C1: for every JSON-representable descriptor object, `parseACPAgent` returns
the same result on the JSON string encoding of the descriptor as on the
descriptor itself.  This holds with the JSON codec of this file, which is proved
to give every representable value back, and with any other pair of `JSON.parse`
and `JSON.stringify` that gives the descriptor back. -/
theorem parseACPAgent_stringify_agrees (fields : List (String × JSVal))
    (hjson : Json.representable (obj fields) = true) :
    parseACPAgent Json.parse (str (Json.stringify (obj fields)))
        = parseACPAgent Json.parse (obj fields) ∧
      ∀ (jsonParse : String → Option JSVal) (jsonStringify : JSVal → String),
        jsonParse (jsonStringify (obj fields)) = some (obj fields) →
        parseACPAgent jsonParse (str (jsonStringify (obj fields)))
          = parseACPAgent jsonParse (obj fields) :=
  ⟨parseACPAgent_of_decoded Json.parse _ fields (Json.parse_stringify (obj fields) hjson),
    fun jsonParse _ h => parseACPAgent_of_decoded jsonParse _ fields h⟩

theorem parseACPAgent_stringify_agrees_witness :
    Json.representable (obj exampleDescriptor) = true ∧
      parseACPAgent Json.parse (str (Json.stringify (obj exampleDescriptor)))
        = parseACPAgent Json.parse (obj exampleDescriptor) ∧
      parseACPAgent Json.parse (obj exampleDescriptor)
        = .ok (assembleParsed (obj exampleDescriptor) [str "search"]) :=
  ⟨rfl, (parseACPAgent_stringify_agrees exampleDescriptor rfl).1, rfl⟩

/-- A string that is not valid JSON is rejected with the parser's own error. -/
theorem parseACPAgent_invalid_json (jsonParse : String → Option JSVal) (s : String)
    (h : jsonParse s = none) :
    parseACPAgent jsonParse (str s)
      = .error (.error "Invalid ACP agent data: Not valid JSON") := by
  unfold parseACPAgent
  simp only [h]
  rfl

/-- C7: on a descriptor object that carries none of the recognised fields, and so
on the empty descriptor, `parseACPAgent` returns exactly the defaults: id
"unknown", name "Unnamed ACP Agent", description "An ACP-compliant agent",
version "1.0.0", capabilities ["acp-compliant"], the empty mapping as
authentication and no skills. -/
theorem parseACPAgent_defaults (jsonParse : String → Option JSVal)
    (fields : List (String × JSVal))
    (h : ∀ key ∈ recognisedFields, fields.lookup key = none) :
    parseACPAgent jsonParse (obj fields) = .ok {
      id := str "unknown"
      name := str "Unnamed ACP Agent"
      description := str "An ACP-compliant agent"
      version := str "1.0.0"
      capabilities := [str "acp-compliant"]
      authentication := obj []
      skills := arr []
      metadata := {
        source := "acp", originalId := undefined, framework := str "beeai", endpoint := null } } := by
  have hr : ∀ key ∈ recognisedFields, (obj fields).readProp key = undefined := by
    intro key hk
    simp [JSVal.readProp, h key hk]
  simp only [recognisedFields, List.mem_cons, List.mem_singleton, List.not_mem_nil, or_false,
    forall_eq_or_imp, forall_eq] at hr
  obtain ⟨h1, h2, h3, h4, h5, h6, h7, h8, h9, h10, h11, h12, h13, h14⟩ := hr
  rw [parseACPAgent_obj]
  have hc : extractCapabilities (obj fields) = .ok [str "acp-compliant"] := by
    unfold extractCapabilities
    simp only [getProp_obj, h8, h9, h11, bind, Except.bind, pure, Except.pure]
    rfl
  rw [hc]
  simp only [Except.map, assembleParsed, h1, h2, h3, h4, h5, h6, h7, h10, h11, h12, h13, h14]
  rfl

theorem parseACPAgent_defaults_witness :
    (∀ key ∈ recognisedFields, ([] : List (String × JSVal)).lookup key = none) ∧
      parseACPAgent (fun _ => none) (obj []) = .ok {
        id := str "unknown"
        name := str "Unnamed ACP Agent"
        description := str "An ACP-compliant agent"
        version := str "1.0.0"
        capabilities := [str "acp-compliant"]
        authentication := obj []
        skills := arr []
        metadata := {
          source := "acp", originalId := undefined, framework := str "beeai",
          endpoint := null } } :=
  ⟨fun _ _ => rfl, parseACPAgent_defaults (fun _ => none) [] (fun _ _ => rfl)⟩

/-- C2 (as amended): the capabilities returned by `parseACPAgent` on a descriptor
object are the `capabilities` field verbatim if it is an array; otherwise
`[capability]` if the `capability` field is truthy; otherwise, if `skills` is an
array with no `undefined` or `null` element, the projection `skill.id ||
skill.name` of every skill, in order and of the same length; otherwise, if
`skills` is not an array, `["acp-compliant"]`.  The two examples of the claim
hold. -/
theorem parsedCapabilities_rules (jsonParse : String → Option JSVal)
    (fields : List (String × JSVal)) :
    (∀ items, (obj fields).readProp "capabilities" = arr items →
      parsedCapabilities jsonParse (obj fields) = .ok items) ∧
    (((obj fields).readProp "capabilities").isArray = false →
      ((obj fields).readProp "capability").truthy = true →
      parsedCapabilities jsonParse (obj fields) = .ok [(obj fields).readProp "capability"]) ∧
    (((obj fields).readProp "capabilities").isArray = false →
      ((obj fields).readProp "capability").truthy = false →
      ∀ skills, (obj fields).readProp "skills" = arr skills →
        (∀ skill ∈ skills, skill.isNullish = false) →
        parsedCapabilities jsonParse (obj fields) = .ok (skills.map skillProjection) ∧
          (skills.map skillProjection).length = skills.length) ∧
    (((obj fields).readProp "capabilities").isArray = false →
      ((obj fields).readProp "capability").truthy = false →
      ((obj fields).readProp "skills").isArray = false →
      parsedCapabilities jsonParse (obj fields) = .ok [str "acp-compliant"]) ∧
    parsedCapabilities jsonParse
        (obj [("skills", arr [obj [("id", str "s1")], obj [("name", str "s2")]])])
      = .ok [str "s1", str "s2"] ∧
    parsedCapabilities jsonParse (obj [("capability", str "x")]) = .ok [str "x"] := by
  rw [parsedCapabilities_obj]
  refine ⟨?_, ?_, ?_, ?_, ?_, ?_⟩
  · intro items h
    unfold extractCapabilities
    simp only [getProp_obj, h, bind, Except.bind, pure, Except.pure]
  · intro h1 h2
    unfold extractCapabilities
    simp only [getProp_obj, bind, Except.bind, pure, Except.pure]
    cases hc : (obj fields).readProp "capabilities" with
    | arr items => simp [hc, JSVal.isArray] at h1
    | _ => simp [h2]
  · intro h1 h2 skills h3 h4
    refine ⟨?_, by simp⟩
    unfold extractCapabilities
    simp only [getProp_obj, bind, Except.bind, pure, Except.pure]
    cases hc : (obj fields).readProp "capabilities" with
    | arr items => simp [hc, JSVal.isArray] at h1
    | _ => simp [h2, h3, mapSkills_of_not_nullish skills h4]
  · intro h1 h2 h3
    unfold extractCapabilities
    simp only [getProp_obj, bind, Except.bind, pure, Except.pure]
    cases hc : (obj fields).readProp "capabilities" with
    | arr items => simp [hc, JSVal.isArray] at h1
    | _ =>
      cases hs : (obj fields).readProp "skills" with
      | arr items => simp [hs, JSVal.isArray] at h3
      | _ => simp [h2]
  · rw [parsedCapabilities_obj]; rfl
  · rw [parsedCapabilities_obj]; rfl

/-- C2, counterexample: the descriptor `{capability: ""}` has a `capability` field,
so the claim gives it the capabilities `[""]`; `parseACPAgent` tests the field
for truthiness and returns `["acp-compliant"]`. -/
theorem parsedCapabilities_empty_capability :
    specCapabilities [("capability", str "")] = [str ""] ∧
      parsedCapabilities (fun _ => none) (obj [("capability", str "")])
        = .ok [str "acp-compliant"] ∧
      parsedCapabilities (fun _ => none) (obj [("capability", str "")])
        ≠ .ok (specCapabilities [("capability", str "")]) := by
  have h1 : specCapabilities [("capability", str "")] = [str ""] := rfl
  have h2 : parsedCapabilities (fun _ => none) (obj [("capability", str "")])
      = .ok [str "acp-compliant"] := rfl
  refine ⟨h1, h2, ?_⟩
  rw [h1, h2]
  simp

/-- A skill whose `id` is present but falsy is projected to its `name`. -/
theorem parsedCapabilities_falsy_skill_id (jsonParse : String → Option JSVal) :
    parsedCapabilities jsonParse (obj [("skills", arr [obj [("id", str ""), ("name", str "n")]])])
      = .ok [str "n"] := by
  rw [parsedCapabilities_obj]; rfl

/-- A `null` element of `skills` makes the derivation throw. -/
theorem parsedCapabilities_null_skill (jsonParse : String → Option JSVal) :
    parsedCapabilities jsonParse (obj [("skills", arr [null])]) = .error (.typeError "id") := by
  rw [parsedCapabilities_obj]; rfl

/-- C3 (as amended): when `parseACPAgent` accepts a descriptor object, the
capabilities of the result are empty exactly when the `capabilities` field is
the empty array, or it is not an array, `capability` is falsy and `skills` is
the empty array; in every other case they are non-empty.  The sentinel
`["acp-compliant"]` is the result whenever `capabilities` and `skills` are not
arrays and `capability` is falsy. -/
theorem parsedCapabilities_empty_iff (jsonParse : String → Option JSVal)
    (fields : List (String × JSVal)) (agent : ParsedAgent)
    (h : parseACPAgent jsonParse (obj fields) = .ok agent) :
    (agent.capabilities = [] ↔
      ((obj fields).readProp "capabilities" = arr [] ∨
        (((obj fields).readProp "capabilities").isArray = false ∧
          ((obj fields).readProp "capability").truthy = false ∧
          (obj fields).readProp "skills" = arr []))) ∧
    (((obj fields).readProp "capabilities").isArray = false →
      ((obj fields).readProp "capability").truthy = false →
      ((obj fields).readProp "skills").isArray = false →
      agent.capabilities = [str "acp-compliant"]) := by
  have hc : extractCapabilities (obj fields) = .ok agent.capabilities := by
    rw [← parsedCapabilities_obj jsonParse, parsedCapabilities, h]; rfl
  clear h
  unfold extractCapabilities at hc
  simp only [getProp_obj, bind, Except.bind, pure, Except.pure] at hc
  cases hcap : (obj fields).readProp "capabilities" with
  | arr items =>
    simp [hcap] at hc
    simp [hc, JSVal.isArray]
  | _ =>
    simp only [hcap] at hc
    by_cases ht : ((obj fields).readProp "capability").truthy = true
    · simp [ht] at hc
      simp [← hc, ht, JSVal.isArray]
    · simp only [ht] at hc
      simp only [Bool.not_eq_true] at ht
      cases hs : (obj fields).readProp "skills" with
      | arr skills =>
        simp [hs] at hc
        have hl := mapSkills_length _ _ hc
        simp [ht, JSVal.isArray]
        constructor
        · intro h0; rw [h0] at hl; simpa using hl.symm
        · intro h0; rw [h0] at hl; simpa using hl
      | _ =>
        simp [hs] at hc
        simp [← hc, ht, JSVal.isArray]

theorem parsedCapabilities_empty_iff_witness :
    parseACPAgent (fun _ => none) (obj [("capability", str "x")])
        = .ok (assembleParsed (obj [("capability", str "x")]) [str "x"]) ∧
    (((assembleParsed (obj [("capability", str "x")]) [str "x"]).capabilities = [] ↔
      ((obj [("capability", str "x")]).readProp "capabilities" = arr [] ∨
        (((obj [("capability", str "x")]).readProp "capabilities").isArray = false ∧
          ((obj [("capability", str "x")]).readProp "capability").truthy = false ∧
          (obj [("capability", str "x")]).readProp "skills" = arr []))) ∧
    (((obj [("capability", str "x")]).readProp "capabilities").isArray = false →
      ((obj [("capability", str "x")]).readProp "capability").truthy = false →
      ((obj [("capability", str "x")]).readProp "skills").isArray = false →
      (assembleParsed (obj [("capability", str "x")]) [str "x"]).capabilities
        = [str "acp-compliant"])) :=
  ⟨rfl, parsedCapabilities_empty_iff (fun _ => none) [("capability", str "x")] _ rfl⟩

/-- C3, counterexample: `parseACPAgent` accepts the descriptor
`{capabilities: []}` and returns it with an empty capabilities sequence. -/
theorem parsedCapabilities_empty_array :
    parsedCapabilities (fun _ => none) (obj [("capabilities", arr [])]) = .ok [] := rfl

/-- An empty `skills` array also yields empty capabilities. -/
theorem parsedCapabilities_empty_skills (jsonParse : String → Option JSVal) :
    parsedCapabilities jsonParse (obj [("skills", arr [])]) = .ok [] := by
  rw [parsedCapabilities_obj]; rfl

/-! ## Theorems: the trust scorer -/

theorem toNumber_optProp_nullish (nm : Numerics) (v : JSVal) (key : String)
    (h : v.isNullish = true) : toNumber nm (v.optProp key) = .ok .nan := by
  simp [JSVal.optProp, h, toNumber, pure, Except.pure]

theorem getProp_eq_optProp (v : JSVal) (key : String) (h : v.isNullish = false) :
    v.getProp key = .ok (v.optProp key) := by
  simp [JSVal.getProp, JSVal.optProp, h]

/-- When the three lengths convert to numbers, `calculateTrustScore` returns. -/
theorem calculateTrustScore_of_numbers (nm : Numerics) (a : ParsedAgent) (x1 x2 x3 : JSNum)
    (h1 : toNumber nm (schemesLength a) = .ok x1)
    (h2 : toNumber nm (skillsLength a) = .ok x2)
    (h3 : toNumber nm (descriptionLength a) = .ok x3) :
    calculateTrustScore nm a
      = .ok ("TEMP-" ++ numToString nm (scoreOf nm x1 x2 x3 a.version.truthy) ++ "%") := by
  unfold schemesLength at h1
  unfold skillsLength at h2
  unfold descriptionLength at h3
  unfold calculateTrustScore scoreOf gt
  simp only [h1, h2, h3, bind, Except.bind, pure, Except.pure]
  cases hs : a.skills.isNullish with
  | true =>
    rw [toNumber_optProp_nullish nm _ _ hs] at h2
    cases h2
    simp [JSNum.gt]
  | false =>
    rw [getProp_eq_optProp _ _ hs]
    simp only [h2]
    cases x2.gt 0 <;> simp

/-- When `calculateTrustScore` returns, the three lengths converted to numbers. -/
theorem calculateTrustScore_ok_inv (nm : Numerics) (a : ParsedAgent) (s : String)
    (h : calculateTrustScore nm a = .ok s) :
    ∃ x1 x2 x3, toNumber nm (schemesLength a) = .ok x1 ∧
      toNumber nm (skillsLength a) = .ok x2 ∧
      toNumber nm (descriptionLength a) = .ok x3 := by
  unfold calculateTrustScore gt at h
  unfold schemesLength skillsLength descriptionLength
  simp only [bind, Except.bind, pure, Except.pure] at h
  cases h1 : toNumber nm ((a.authentication.optProp "schemes").optProp "length") with
  | error e => simp [h1] at h
  | ok x1 =>
    cases h2 : toNumber nm (a.skills.optProp "length") with
    | error e => simp [h1, h2] at h
    | ok x2 =>
      cases h3 : toNumber nm (a.description.optProp "length") with
      | error e =>
        simp only [h1, h2, h3] at h
        exfalso
        by_cases hp : x2.gt 0 = true
        · simp only [hp, if_true] at h
          cases hg : a.skills.getProp "length" with
          | error e2 => simp [hg] at h
          | ok v =>
            simp only [hg] at h
            cases hv : toNumber nm v <;> simp [hv] at h
        · simp [hp] at h
      | ok x3 => exact ⟨x1, x2, x3, rfl, rfl, rfl⟩

theorem numAdd_fin (nm : Numerics) (a b : ℚ) :
    numAdd nm (.fin a) (.fin b) = .fin (nm.round (a + b)) := rfl

theorem round_ge_seventy (nm : Numerics) (q : ℚ) (h : 70 ≤ q) : 70 ≤ nm.round q := by
  have h1 := nm.round_mono 70 q h
  have h2 := nm.round_int 70 (by norm_num) (by norm_num)
  simp at h2
  rw [h2] at h1
  exact h1

/-- The bonus for skills is a finite number that is not negative. -/
theorem skills_bonus_fin (x : JSNum) (h : x.gt 0 = true) :
    ∃ m : ℚ, mathMin (numDouble x) (.fin 10) = .fin m ∧ 0 ≤ m := by
  cases x with
  | nan => simp [JSNum.gt] at h
  | negInf => simp [JSNum.gt] at h
  | posInf => exact ⟨10, rfl, by norm_num⟩
  | fin q =>
    simp [JSNum.gt] at h
    refine ⟨min (q * 2) 10, rfl, ?_⟩
    apply le_min
    · linarith
    · norm_num

/-- The printed number is finite and lies between 70 and 100. -/
theorem scoreOf_range (nm : Numerics) (x1 x2 x3 : JSNum) (version : Bool) :
    ∃ q : ℚ, scoreOf nm x1 x2 x3 version = .fin q ∧ 70 ≤ q ∧ q ≤ 100 := by
  have step : ∀ (q c : ℚ), 70 ≤ q → 0 ≤ c →
      ∃ r : ℚ, numAdd nm (.fin q) (.fin c) = .fin r ∧ 70 ≤ r := by
    intro q c hq hc
    exact ⟨_, rfl, round_ge_seventy nm _ (by linarith)⟩
  have s1 : ∃ q1 : ℚ, (if x1.gt 0 then numAdd nm (.fin 70) (.fin 10) else .fin 70) = .fin q1
      ∧ 70 ≤ q1 := by
    split
    · exact step 70 10 (le_refl _) (by norm_num)
    · exact ⟨70, rfl, le_refl _⟩
  obtain ⟨q1, e1, b1⟩ := s1
  have s2 : ∃ q2 : ℚ, (if x2.gt 0 then numAdd nm (.fin q1) (mathMin (numDouble x2) (.fin 10))
      else .fin q1) = .fin q2 ∧ 70 ≤ q2 := by
    split
    · rename_i h
      obtain ⟨m, em, bm⟩ := skills_bonus_fin x2 h
      rw [em]
      exact step q1 m b1 bm
    · exact ⟨q1, rfl, b1⟩
  obtain ⟨q2, e2, b2⟩ := s2
  have s3 : ∃ q3 : ℚ, (if x3.gt 50 then numAdd nm (.fin q2) (.fin 5) else .fin q2) = .fin q3
      ∧ 70 ≤ q3 := by
    split
    · exact step q2 5 b2 (by norm_num)
    · exact ⟨q2, rfl, b2⟩
  obtain ⟨q3, e3, b3⟩ := s3
  have s4 : ∃ q4 : ℚ, (if version then numAdd nm (.fin q3) (.fin 5) else .fin q3) = .fin q4
      ∧ 70 ≤ q4 := by
    split
    · exact step q3 5 b3 (by norm_num)
    · exact ⟨q3, rfl, b3⟩
  obtain ⟨q4, e4, b4⟩ := s4
  refine ⟨min q4 100, ?_, le_min b4 (by norm_num), min_le_right _ _⟩
  unfold scoreOf
  simp only [e1, e2, e3, e4]
  rfl

theorem numToString_int (nm : Numerics) (n : Int) (h : n.natAbs < 1000000000000000000000) :
    numToString nm (.fin (n : ℚ)) = toString n := by
  simp [numToString, h]

theorem numAdd_int (nm : Numerics) (a b : Int) (ha0 : 0 ≤ a) (ha : a ≤ 100) (hb0 : 0 ≤ b)
    (hb : b ≤ 10) : numAdd nm (.fin (a : ℚ)) (.fin (b : ℚ)) = .fin ((a + b : Int) : ℚ) := by
  rw [numAdd_fin, ← Int.cast_add, nm.round_int (a + b) (by omega) (by omega)]

/-- On a canonical agent the test of the schemes is the comparison that
`calculateTrustScore` makes. -/
theorem hasSchemes_eq (nm : Numerics) (c : CanonicalAgent) :
    c.hasSchemes nm = gt nm (schemesLength c.toParsed) 0 := by
  unfold CanonicalAgent.hasSchemes schemesLength CanonicalAgent.toParsed
  simp only [JSVal.optProp, JSVal.isNullish, JSVal.readProp]
  cases c.authentication.lookup "schemes" with
  | none => simp [gt, toNumber, JSVal.isNullish, JSNum.gt, bind, Except.bind, pure, Except.pure]
  | some v => simp

theorem hasSchemes_ok (nm : Numerics) (c : CanonicalAgent) (p : Bool)
    (h : c.hasSchemes nm = .ok p) :
    ∃ x1, toNumber nm (schemesLength c.toParsed) = .ok x1 ∧ x1.gt 0 = p := by
  rw [hasSchemes_eq] at h
  unfold gt at h
  cases hx : toNumber nm (schemesLength c.toParsed) with
  | error e => simp [hx, bind, Except.bind] at h
  | ok x1 =>
    simp [hx, bind, Except.bind, pure, Except.pure] at h
    exact ⟨x1, rfl, h⟩

theorem skillsLength_canonical (nm : Numerics) (c : CanonicalAgent) :
    toNumber nm (skillsLength c.toParsed) = .ok (.fin ((c.skills.length : Int) : ℚ)) := by
  simp [skillsLength, CanonicalAgent.toParsed, JSVal.optProp, JSVal.isNullish, JSVal.readProp,
    toNumber, pure, Except.pure]

theorem descriptionLength_canonical (nm : Numerics) (c : CanonicalAgent) :
    toNumber nm (descriptionLength c.toParsed)
      = .ok (.fin (((utf16Length c.description : Nat) : Int) : ℚ)) := by
  simp [descriptionLength, CanonicalAgent.toParsed, JSVal.optProp, JSVal.isNullish,
    JSVal.readProp, toNumber, pure, Except.pure]

theorem gt_fin_int (n k : Int) : (JSNum.fin (n : ℚ)).gt k = decide (k < n) := by
  simp [JSNum.gt]

theorem mathMin_fin_int (a b : Int) :
    mathMin (.fin (a : ℚ)) (.fin (b : ℚ)) = .fin ((min a b : Int) : ℚ) := by
  simp [mathMin]

theorem numDouble_fin_int (a : Int) : numDouble (.fin (a : ℚ)) = .fin ((a * 2 : Int) : ℚ) := by
  simp [numDouble]

/-- The printed number when the skills and the description have integer lengths. -/
theorem scoreOf_int (nm : Numerics) (x1 : JSNum) (len dlen : Int) (hlen : 0 ≤ len)
    (version : Bool) :
    scoreOf nm x1 (.fin (len : ℚ)) (.fin (dlen : ℚ)) version
      = .fin ((min 100 (70
          + (if x1.gt 0 = true then 10 else 0)
          + min (len * 2) 10
          + (if 50 < dlen then 5 else 0)
          + (if version = true then 5 else 0)) : Int) : ℚ) := by
  unfold scoreOf
  have c70 : (JSNum.fin 70) = .fin ((70 : Int) : ℚ) := by simp
  have c10 : (JSNum.fin 10) = .fin ((10 : Int) : ℚ) := by simp
  have c5 : (JSNum.fin 5) = .fin ((5 : Int) : ℚ) := by simp
  have c100 : (JSNum.fin 100) = .fin ((100 : Int) : ℚ) := by simp
  rw [c70, c10, c5, c100, numDouble_fin_int, mathMin_fin_int, gt_fin_int, gt_fin_int]
  have hm0 : 0 ≤ min (len * 2) 10 := le_min (by omega) (by omega)
  have hm1 : min (len * 2) 10 ≤ 10 := min_le_right _ _
  have hmz : ¬ 0 < len → min (len * 2) 10 = 0 := by
    intro h
    have : len = 0 := by omega
    simp [this]
  generalize min (len * 2) 10 = m at hm0 hm1 hmz
  cases h1 : x1.gt 0 <;> by_cases h2 : 0 < len <;> by_cases h3 : 50 < dlen <;>
    cases version <;>
    simp only [h2, h3, decide_True, decide_False, if_true, if_false, Bool.false_eq_true,
      hmz, not_false_eq_true] <;>
    (repeat rw [numAdd_int nm _ _ (by omega) (by omega) (by omega) (by omega)]) <;>
    rw [mathMin_fin_int] <;>
    congr 2 <;>
    omega

/-- On a canonical agent the printed number is the number of the specification. -/
theorem scoreOf_canonical (nm : Numerics) (c : CanonicalAgent) (x1 : JSNum) :
    scoreOf nm x1 (.fin ((c.skills.length : Int) : ℚ))
        (.fin (((utf16Length c.description : Nat) : Int) : ℚ)) c.toParsed.version.truthy
      = .fin ((specTrustScore (x1.gt 0) c : Int) : ℚ) := by
  rw [scoreOf_int nm x1 _ _ (by omega)]
  simp [specTrustScore, CanonicalAgent.toParsed, JSVal.truthy]

theorem hasSchemes_of_array (nm : Numerics) (c : CanonicalAgent) (items : List JSVal)
    (h : c.authentication.lookup "schemes" = some (arr items)) :
    c.hasSchemes nm = .ok (decide (0 < items.length)) := by
  simp [CanonicalAgent.hasSchemes, h, gt, JSVal.optProp, JSVal.isNullish, JSVal.readProp,
    toNumber, JSNum.gt, bind, Except.bind, pure, Except.pure]

theorem hasSchemes_of_absent (nm : Numerics) (c : CanonicalAgent)
    (h : c.authentication.lookup "schemes" = none) :
    c.hasSchemes nm = .ok false := by
  simp [CanonicalAgent.hasSchemes, h, pure, Except.pure]

/-- On a canonical agent whose schemes test returns, `calculateTrustScore`
returns the number of the specification. -/
theorem calculateTrustScore_canonical (nm : Numerics) (c : CanonicalAgent) (p : Bool)
    (h : c.hasSchemes nm = .ok p) :
    calculateTrustScore nm c.toParsed
      = .ok ("TEMP-" ++ toString (specTrustScore p c) ++ "%") := by
  obtain ⟨x1, hx1, hp⟩ := hasSchemes_ok nm c p h
  rw [calculateTrustScore_of_numbers nm c.toParsed x1 _ _ hx1 (skillsLength_canonical nm c)
    (descriptionLength_canonical nm c), scoreOf_canonical, hp, numToString_int]
  have h1 : 0 ≤ specTrustScore p c := by
    unfold specTrustScore
    have : 0 ≤ min ((c.skills.length : Int) * 2) 10 := le_min (by omega) (by omega)
    apply le_min (by omega)
    split <;> split <;> split <;> omega
  have h2 : specTrustScore p c ≤ 100 := min_le_left _ _
  omega

/-- C4 (as amended): on every canonical agent for which the test
"`authentication.schemes` exists and has length > 0" returns,
`calculateTrustScore` returns "TEMP-n%" with n = min(100, 70 + (10 if the test is
true) + min(skills.length * 2, 10) + (5 if description.length > 50) + (5 if
version is truthy)).  The test returns when the schemes are absent (false) or
an array (true when it is not empty), and the example agent scores
"TEMP-96%". -/
theorem calculateTrustScore_formula (nm : Numerics) (agent : CanonicalAgent)
    (hasSchemes : Bool) (h : agent.hasSchemes nm = .ok hasSchemes) :
    calculateTrustScore nm agent.toParsed
        = .ok ("TEMP-" ++ toString (specTrustScore hasSchemes agent) ++ "%") ∧
      (agent.authentication.lookup "schemes" = none → hasSchemes = false) ∧
      (∀ items, agent.authentication.lookup "schemes" = some (arr items) →
        hasSchemes = decide (0 < items.length)) ∧
      exampleAgent.hasSchemes nm = .ok true ∧
      calculateTrustScore nm exampleAgent.toParsed = .ok "TEMP-96%" := by
  have hex : exampleAgent.hasSchemes nm = .ok true :=
    hasSchemes_of_array nm exampleAgent [str "oauth"] rfl
  refine ⟨calculateTrustScore_canonical nm agent hasSchemes h, ?_, ?_, hex, ?_⟩
  · intro hn
    have := hasSchemes_of_absent nm agent hn
    rw [h] at this
    exact Except.ok.inj this
  · intro items hi
    have := hasSchemes_of_array nm agent items hi
    rw [h] at this
    exact Except.ok.inj this
  · rw [calculateTrustScore_canonical nm exampleAgent true hex]
    rfl

theorem calculateTrustScore_formula_witness :
    exampleAgentNoSchemes.hasSchemes exactNumerics = .ok false ∧
      calculateTrustScore exactNumerics exampleAgentNoSchemes.toParsed = .ok "TEMP-86%" :=
  ⟨rfl, (calculateTrustScore_formula exactNumerics exampleAgentNoSchemes false rfl).1⟩

/-- C4, counterexample: the canonical agent whose authentication is
`{schemes: {length: {valueOf: 1, toString: 1}}}` gets no score:
the comparison of that length with 0 throws a TypeError. -/
theorem calculateTrustScore_opaque_schemes :
    calculateTrustScore exactNumerics exampleAgentOpaqueSchemes.toParsed
      = .error notPrimitive := rfl

/-- C5 (as amended): for two canonical agents on which the test of
`authentication.schemes` returns, if every contributing factor of `b` is at
least that of `a` (in particular if they differ in one factor only, which is
larger in `b`), both calls return and the number printed for `b` is at least
the number printed for `a`. -/
theorem calculateTrustScore_monotone (nm : Numerics) (a b : CanonicalAgent)
    (schemesA schemesB : Bool)
    (ha : a.hasSchemes nm = .ok schemesA) (hb : b.hasSchemes nm = .ok schemesB)
    (hschemes : schemesA = true → schemesB = true)
    (hskills : a.skills.length ≤ b.skills.length)
    (hdescription : 50 < utf16Length a.description → 50 < utf16Length b.description)
    (hversion : a.version ≠ "" → b.version ≠ "") :
    ∃ na nb : Int,
      calculateTrustScore nm a.toParsed = .ok ("TEMP-" ++ toString na ++ "%") ∧
      calculateTrustScore nm b.toParsed = .ok ("TEMP-" ++ toString nb ++ "%") ∧
      na ≤ nb := by
  refine ⟨specTrustScore schemesA a, specTrustScore schemesB b,
    calculateTrustScore_canonical nm a schemesA ha,
    calculateTrustScore_canonical nm b schemesB hb, ?_⟩
  unfold specTrustScore
  have h1 : (if schemesA = true then (10 : Int) else 0)
      ≤ (if schemesB = true then 10 else 0) := by
    split_ifs with ha hb <;> simp_all
  have h3 : (if 50 < utf16Length a.description then (5 : Int) else 0)
      ≤ (if 50 < utf16Length b.description then 5 else 0) := by
    split_ifs with ha hb <;> simp_all
  have h4 : (if a.version ≠ "" then (5 : Int) else 0) ≤ (if b.version ≠ "" then 5 else 0) := by
    split_ifs with ha hb <;> simp_all
  have h2 : (a.skills.length : Int) ≤ (b.skills.length : Int) := by exact_mod_cast hskills
  omega

theorem calculateTrustScore_monotone_witness :
    exampleAgentNoSchemes.hasSchemes exactNumerics = .ok false ∧
      exampleAgent.hasSchemes exactNumerics = .ok true ∧
      exampleAgentNoSchemes.skills.length ≤ exampleAgent.skills.length ∧
      ∃ na nb : Int,
        calculateTrustScore exactNumerics exampleAgentNoSchemes.toParsed
          = .ok ("TEMP-" ++ toString na ++ "%") ∧
        calculateTrustScore exactNumerics exampleAgent.toParsed
          = .ok ("TEMP-" ++ toString nb ++ "%") ∧
        na ≤ nb :=
  ⟨rfl, rfl, Nat.le_refl _,
    calculateTrustScore_monotone exactNumerics exampleAgentNoSchemes exampleAgent false true
      rfl rfl (fun _ => rfl) (Nat.le_refl _) (fun h => h) (fun h => h)⟩

/-- C5, counterexample: two canonical agents that differ in their number of
skills only (three and four) and whose `authentication.schemes.length` is
`{valueOf: 1, toString: 1}`: `calculateTrustScore` throws on both, so
neither has a number to compare. -/
theorem calculateTrustScore_no_scores_to_compare :
    exampleAgentOpaqueSchemes.skills.length < exampleAgentOpaqueSchemesMoreSkills.skills.length ∧
      calculateTrustScore exactNumerics exampleAgentOpaqueSchemes.toParsed
        = .error notPrimitive ∧
      calculateTrustScore exactNumerics exampleAgentOpaqueSchemesMoreSkills.toParsed
        = .error notPrimitive :=
  ⟨by decide, rfl, rfl⟩

/-- C6 (as amended): whenever `calculateTrustScore` returns, it returns
"TEMP-n%" with a number n, not always an integer, such that 70 ≤ n ≤ 100; and
it returns exactly when the three lengths it compares convert to numbers
(otherwise the conversion throws a TypeError). -/
theorem calculateTrustScore_range (nm : Numerics) (agentData : ParsedAgent) :
    (∀ s, calculateTrustScore nm agentData = .ok s →
      ∃ n : ℚ, s = "TEMP-" ++ numToString nm (.fin n) ++ "%" ∧ 70 ≤ n ∧ n ≤ 100) ∧
    ((∃ s, calculateTrustScore nm agentData = .ok s) ↔
      ∃ x1 x2 x3, toNumber nm (schemesLength agentData) = .ok x1 ∧
        toNumber nm (skillsLength agentData) = .ok x2 ∧
        toNumber nm (descriptionLength agentData) = .ok x3) := by
  constructor
  · intro s hs
    obtain ⟨x1, x2, x3, h1, h2, h3⟩ := calculateTrustScore_ok_inv nm agentData s hs
    obtain ⟨n, hn, hlo, hhi⟩ := scoreOf_range nm x1 x2 x3 agentData.version.truthy
    rw [calculateTrustScore_of_numbers nm agentData x1 x2 x3 h1 h2 h3, hn] at hs
    exact ⟨n, (Except.ok.inj hs).symm, hlo, hhi⟩
  · constructor
    · rintro ⟨s, hs⟩
      exact calculateTrustScore_ok_inv nm agentData s hs
    · rintro ⟨x1, x2, x3, h1, h2, h3⟩
      exact ⟨_, calculateTrustScore_of_numbers nm agentData x1 x2 x3 h1 h2 h3⟩

/-- C6, counterexample: `parseACPAgent` accepts the descriptor
`{skills: {length: {valueOf: 1, toString: 1}}}`, and on the agent it returns
`calculateTrustScore` returns no string: the comparison `skills.length > 0`
throws a TypeError. -/
theorem calculateTrustScore_opaque_skills :
    parseACPAgent (fun _ => none) (obj [("skills", obj [("length", opaqueObject)])])
        = .ok (assembleParsed (obj [("skills", obj [("length", opaqueObject)])])
          [str "acp-compliant"]) ∧
      calculateTrustScore exactNumerics
          (assembleParsed (obj [("skills", obj [("length", opaqueObject)])])
            [str "acp-compliant"])
        = .error notPrimitive :=
  ⟨rfl, rfl⟩

/-- The agent parsed from the empty descriptor scores "TEMP-75%". -/
theorem calculateTrustScore_default (nm : Numerics) :
    calculateTrustScore nm (assembleParsed (obj []) [str "acp-compliant"]) = .ok "TEMP-75%" :=
  calculateTrustScore_canonical nm defaultAgent false rfl

/-- A length that is not an integer gives a score that is not an integer: the
agent parsed from `{skills: {length: "0.3"}}` scores "TEMP-75.6%". -/
theorem calculateTrustScore_fractional :
    calculateTrustScore decimalNumerics fractionalSkillsAgent = .ok "TEMP-75.6%" := by
  rw [calculateTrustScore_of_numbers decimalNumerics fractionalSkillsAgent .nan
    (.fin (3 / 10)) (.fin ((22 : Int) : ℚ)) rfl rfl rfl]
  have hs : scoreOf decimalNumerics .nan (.fin (3 / 10)) (.fin ((22 : Int) : ℚ))
      fractionalSkillsAgent.version.truthy = .fin (378 / 5) := by
    have hv : fractionalSkillsAgent.version.truthy = true := rfl
    rw [hv]
    simp [scoreOf, JSNum.gt, numAdd, numDouble, mathMin, decimalNumerics]
    norm_num
  rw [hs]
  have hd : ¬ ((378 / 5 : ℚ).den = 1 ∧ (378 / 5 : ℚ).num.natAbs < 1000000000000000000000) := by
    intro h
    have h1 : ((378 / 5 : ℚ).den : ℚ) = 1 := by exact_mod_cast h.1
    have h2 := Rat.num_div_den (378 / 5 : ℚ)
    rw [h1, div_one] at h2
    have h3 : ((378 / 5 : ℚ).num : ℚ) * 5 = 378 := by rw [h2]; norm_num
    have h4 : (378 / 5 : ℚ).num * 5 = 378 := by exact_mod_cast h3
    omega
  simp only [numToString, hd, if_false, decimalNumerics, if_true]
  rfl

/-! ## Theorems: registration -/

theorem parseACPAgent_str (jsonParse : String → Option JSVal) (s : String) (v : JSVal)
    (h : jsonParse s = some v) :
    parseACPAgent jsonParse (str s) = normaliseDecoded v := by
  unfold parseACPAgent normaliseDecoded
  simp only [h]
  cases hn : v.isNullish
  · simp only [getProp_of_not_nullish _ _ hn, bind, Except.bind, pure, Except.pure]
    cases extractCapabilities v <;> rfl
  · simp [JSVal.getProp, hn, bind, Except.bind, pure, Except.pure]

theorem parseACPAgent_of_not_string (jsonParse : String → Option JSVal) (agentData : JSVal)
    (h : ∀ s, agentData ≠ str s) :
    parseACPAgent jsonParse agentData = normaliseDecoded agentData := by
  unfold parseACPAgent normaliseDecoded
  cases agentData with
  | str s => exact absurd rfl (h s)
  | undefined => rfl
  | null => rfl
  | bool b =>
    simp only [JSVal.getProp, JSVal.isNullish, bind, Except.bind, pure, Except.pure]
    cases extractCapabilities (JSVal.bool b) <;> rfl
  | num n =>
    simp only [JSVal.getProp, JSVal.isNullish, bind, Except.bind, pure, Except.pure]
    cases extractCapabilities (num n) <;> rfl
  | arr items =>
    simp only [JSVal.getProp, JSVal.isNullish, bind, Except.bind, pure, Except.pure]
    cases extractCapabilities (arr items) <;> rfl
  | obj fields =>
    simp only [JSVal.getProp, JSVal.isNullish, bind, Except.bind, pure, Except.pure]
    cases extractCapabilities (obj fields) <;> rfl

theorem or_arr_not_nullish (v : JSVal) (items : List JSVal) :
    (v.or (arr items)).isNullish = false := by
  unfold JSVal.or
  split
  · cases v <;> simp_all [JSVal.truthy, JSVal.isNullish]
  · rfl

theorem normaliseDecoded_skills (agentData : JSVal) (parsed : ParsedAgent)
    (h : normaliseDecoded agentData = .ok parsed) : parsed.skills.isNullish = false := by
  unfold normaliseDecoded at h
  split at h
  · simp at h
  · cases hc : extractCapabilities agentData with
    | error e => simp [hc, Except.map] at h
    | ok caps =>
      simp [hc, Except.map] at h
      rw [← h]
      exact or_arr_not_nullish _ _

/-- The `skills` member of a parsed agent is never `undefined` or `null`. -/
theorem parseACPAgent_skills (jsonParse : String → Option JSVal) (agentData : JSVal)
    (parsed : ParsedAgent) (h : parseACPAgent jsonParse agentData = .ok parsed) :
    parsed.skills.isNullish = false := by
  cases agentData with
  | str s =>
    cases hp : jsonParse s with
    | none =>
      unfold parseACPAgent at h
      simp [hp, bind, Except.bind, throw, throwThe, MonadExceptOf.throw] at h
    | some v =>
      rw [parseACPAgent_str _ _ _ hp] at h
      exact normaliseDecoded_skills _ _ h
  | _ =>
    rw [parseACPAgent_of_not_string _ _ (by intro s hs; cases hs)] at h
    exact normaliseDecoded_skills _ _ h

/-- Once the descriptor is parsed and the request answered, `registerACPAgent`
decodes the body and then looks at the status. -/
theorem registerACPAgent_answered (rt : Runtime) (self : ACPBridge) (agentData : JSVal)
    (parsed : ParsedAgent) (response : Response)
    (hparse : parseACPAgent rt.jsonParse agentData = .ok parsed)
    (hfetch : registerRequest rt self parsed = .ok response) :
    registerACPAgent rt self agentData
      = response.json.bind fun result =>
          if response.ok = false then
            (result.getProp "error").bind fun error =>
            (jsToString rt
              (error.or (str ("Registration failed: " ++ toString response.status)))).bind
              fun message => .error (.error message)
          else
            (result.getProp "agentId").bind fun agentId =>
            (result.getProp "status").bind fun status =>
            (calculateTrustScore rt.numerics parsed).bind fun trustScore =>
              .ok {
                astraSync := {
                  agentId := agentId
                  status := status.or (str "registered")
                  trustScore := trustScore
                  blockchain := { status := "pending", message := "Blockchain registration queued" }
                  registeredAt := rt.now 1 }
                original := parsed
                registration := {
                  email := self.developerEmail
                  source := "acp-bridge"
                  apiVersion := "v1" } } := by
  unfold registerRequest at hfetch
  unfold registerACPAgent
  simp only [hparse, getProp_of_not_nullish _ _ (parseACPAgent_skills _ _ _ hparse), hfetch,
    bind, Except.bind, pure, Except.pure]
  cases response.json with
  | error e => rfl
  | ok result =>
    cases hok : response.ok with
    | false =>
      simp only [Bool.not_false, if_true]
      cases result.getProp "error" with
      | error e => rfl
      | ok error =>
        simp only []
        cases jsToString rt
          (error.or (str ("Registration failed: " ++ toString response.status))) <;> rfl
    | true =>
      simp only [Bool.not_true, Bool.false_eq_true, if_false]
      cases result.getProp "agentId" <;> cases result.getProp "status" <;>
        cases calculateTrustScore rt.numerics parsed <;> rfl

/-- C8 (as amended): when the registration response has a status that is not
success, `registerACPAgent` fails and returns no result.  If the body of the
response decodes to a JSON value other than `null`, the message of the error is
the `error` field of the body when that field is a non-empty string, and
"Registration failed: " followed by the status when the field is absent or
falsy.  A status-400 response with body `{error: "duplicate"}` fails with the
message "duplicate". -/
theorem registerACPAgent_rejected (rt : Runtime) (self : ACPBridge) (agentData : JSVal)
    (parsed : ParsedAgent) (response : Response)
    (hparse : parseACPAgent rt.jsonParse agentData = .ok parsed)
    (hfetch : registerRequest rt self parsed = .ok response)
    (hstatus : response.ok = false) :
    (∃ e, registerACPAgent rt self agentData = .error e) ∧
    (∀ body, response.json = .ok body → body.isNullish = false →
      (∀ message, body.readProp "error" = str message → message ≠ "" →
        registerACPAgent rt self agentData = .error (.error message)) ∧
      ((body.readProp "error").truthy = false →
        registerACPAgent rt self agentData
          = .error (.error ("Registration failed: " ++ toString response.status)))) ∧
    (response.status = 400 → response.json = .ok (obj [("error", str "duplicate")]) →
      registerACPAgent rt self agentData = .error (.error "duplicate")) := by
  rw [registerACPAgent_answered rt self agentData parsed response hparse hfetch]
  simp only [hstatus, if_true]
  refine ⟨?_, ?_, ?_⟩
  · cases response.json with
    | error e => exact ⟨e, rfl⟩
    | ok result =>
      simp only [Except.bind]
      cases result.getProp "error" with
      | error e => exact ⟨e, rfl⟩
      | ok error =>
        simp only []
        cases jsToString rt
            (error.or (str ("Registration failed: " ++ toString response.status))) with
        | error e => exact ⟨e, rfl⟩
        | ok message => exact ⟨_, rfl⟩
  · intro body hbody hnn
    rw [hbody]
    simp only [Except.bind, getProp_of_not_nullish _ _ hnn]
    constructor
    · intro message hm hne
      simp [hm, JSVal.or, JSVal.truthy, hne, jsToString, pure, Except.pure]
    · intro hf
      simp [JSVal.or, hf, jsToString, pure, Except.pure]
  · intro _ hbody
    rw [hbody]
    rfl

theorem registerACPAgent_rejected_witness :
    parseACPAgent (answering ⟨400, .ok (obj [("error", str "duplicate")])⟩).jsonParse (obj [])
        = .ok (assembleParsed (obj []) [str "acp-compliant"]) ∧
    registerRequest (answering ⟨400, .ok (obj [("error", str "duplicate")])⟩) exampleBridge
        (assembleParsed (obj []) [str "acp-compliant"])
        = .ok ⟨400, .ok (obj [("error", str "duplicate")])⟩ ∧
    Response.ok ⟨400, .ok (obj [("error", str "duplicate")])⟩ = false ∧
    registerACPAgent (answering ⟨400, .ok (obj [("error", str "duplicate")])⟩) exampleBridge
        (obj []) = .error (.error "duplicate") :=
  ⟨rfl, rfl, rfl,
    (registerACPAgent_rejected (answering ⟨400, .ok (obj [("error", str "duplicate")])⟩)
      exampleBridge (obj []) (assembleParsed (obj []) [str "acp-compliant"])
      ⟨400, .ok (obj [("error", str "duplicate")])⟩ rfl rfl rfl).2.2 rfl rfl⟩

/-- C8, counterexample: a status-400 response whose body is `{error: ""}` has the
`error` field, yet the message is the status message and not the field; and a
status-502 response whose body is not JSON fails with the decoding error of
`response.json()`, whose message does not embed the status. -/
theorem registration_falsy_error_field :
    registerACPAgent (answering ⟨400, .ok (obj [("error", str "")])⟩) exampleBridge (obj [])
        = .error (.error "Registration failed: 400") ∧
      registerACPAgent (answering ⟨502, .error (.runtime "Unexpected token < in JSON")⟩)
          exampleBridge (obj [])
        = .error (.runtime "Unexpected token < in JSON") :=
  ⟨rfl, rfl⟩

/-- C9 (as amended): when the registration response has a success status, its
body decodes to a JSON value other than `null` and `calculateTrustScore` returns
for the parsed agent, `registerACPAgent` returns a registration result whose
`agentId` is the `agentId` field of the body and whose status is the `status`
field or "registered"; when the body is an object without an `agentId` field
the call still succeeds, with `agentId` undefined. -/
theorem registerACPAgent_accepted (rt : Runtime) (self : ACPBridge) (agentData : JSVal)
    (parsed : ParsedAgent) (response : Response) (body : JSVal) (trustScore : String)
    (hparse : parseACPAgent rt.jsonParse agentData = .ok parsed)
    (hfetch : registerRequest rt self parsed = .ok response)
    (hstatus : response.ok = true)
    (hbody : response.json = .ok body)
    (hvalue : body.isNullish = false)
    (hscore : calculateTrustScore rt.numerics parsed = .ok trustScore) :
    registerACPAgent rt self agentData = .ok {
      astraSync := {
        agentId := body.readProp "agentId"
        status := (body.readProp "status").or (str "registered")
        trustScore := trustScore
        blockchain := { status := "pending", message := "Blockchain registration queued" }
        registeredAt := rt.now 1 }
      original := parsed
      registration := {
        email := self.developerEmail
        source := "acp-bridge"
        apiVersion := "v1" } } ∧
    (∀ fields, body = obj fields → fields.lookup "agentId" = none →
      ∃ result, registerACPAgent rt self agentData = .ok result ∧
        result.astraSync.agentId = undefined) := by
  rw [registerACPAgent_answered rt self agentData parsed response hparse hfetch]
  simp only [hstatus, hbody, hscore, Except.bind, getProp_of_not_nullish _ _ hvalue]
  refine ⟨rfl, ?_⟩
  intro fields hb hl
  refine ⟨_, rfl, ?_⟩
  simp [hb, JSVal.readProp, hl]

/-- When `calculateTrustScore` throws, a success response is of no help:
`registerACPAgent` throws the same error. -/
theorem registerACPAgent_score_throws (rt : Runtime) (self : ACPBridge) (agentData : JSVal)
    (parsed : ParsedAgent) (response : Response) (body : JSVal) (e : JSError)
    (hparse : parseACPAgent rt.jsonParse agentData = .ok parsed)
    (hfetch : registerRequest rt self parsed = .ok response)
    (hstatus : response.ok = true)
    (hbody : response.json = .ok body)
    (hvalue : body.isNullish = false)
    (hscore : calculateTrustScore rt.numerics parsed = .error e) :
    registerACPAgent rt self agentData = .error e := by
  rw [registerACPAgent_answered rt self agentData parsed response hparse hfetch]
  simp only [hstatus, hbody, hscore, Except.bind, getProp_of_not_nullish _ _ hvalue]
  rfl

/-- On the descriptor `{skills: {length: {valueOf: 1, toString: 1}}}` a success
response with an `agentId` ends in the TypeError of `calculateTrustScore`. -/
theorem registerACPAgent_opaque_skills :
    registerACPAgent (answering ⟨200, .ok (obj [("agentId", str "AS-1")])⟩) exampleBridge
        (obj [("skills", obj [("length", opaqueObject)])])
      = .error notPrimitive :=
  registerACPAgent_score_throws (answering ⟨200, .ok (obj [("agentId", str "AS-1")])⟩)
    exampleBridge (obj [("skills", obj [("length", opaqueObject)])])
    (assembleParsed (obj [("skills", obj [("length", opaqueObject)])]) [str "acp-compliant"])
    ⟨200, .ok (obj [("agentId", str "AS-1")])⟩ (obj [("agentId", str "AS-1")]) notPrimitive
    rfl rfl rfl rfl rfl rfl

theorem registerACPAgent_accepted_witness :
    parseACPAgent (answering ⟨200, .ok (obj [("agentId", str "AS-1")])⟩).jsonParse (obj [])
        = .ok (assembleParsed (obj []) [str "acp-compliant"]) ∧
    registerRequest (answering ⟨200, .ok (obj [("agentId", str "AS-1")])⟩) exampleBridge
        (assembleParsed (obj []) [str "acp-compliant"])
        = .ok ⟨200, .ok (obj [("agentId", str "AS-1")])⟩ ∧
    Response.ok ⟨200, .ok (obj [("agentId", str "AS-1")])⟩ = true ∧
    calculateTrustScore (answering ⟨200, .ok (obj [("agentId", str "AS-1")])⟩).numerics
        (assembleParsed (obj []) [str "acp-compliant"]) = .ok "TEMP-75%" ∧
    (∃ result, registerACPAgent (answering ⟨200, .ok (obj [("agentId", str "AS-1")])⟩)
        exampleBridge (obj []) = .ok result ∧ result.astraSync.agentId = str "AS-1" ∧
        result.astraSync.trustScore = "TEMP-75%") :=
  ⟨rfl, rfl, rfl, calculateTrustScore_default _, _,
    (registerACPAgent_accepted (answering ⟨200, .ok (obj [("agentId", str "AS-1")])⟩)
      exampleBridge (obj []) (assembleParsed (obj []) [str "acp-compliant"])
      ⟨200, .ok (obj [("agentId", str "AS-1")])⟩ (obj [("agentId", str "AS-1")]) "TEMP-75%"
      rfl rfl rfl rfl rfl (calculateTrustScore_default _)).1, rfl, rfl⟩

/-- C9, counterexample: a status-200 response whose body `{}` lacks `agentId`
makes `registerACPAgent` return a registration result, with `agentId`
undefined, instead of failing. -/
theorem registerACPAgent_missing_agentId :
    ∃ result, registerACPAgent (answering ⟨200, .ok (obj [])⟩) exampleBridge (obj [])
        = .ok result ∧ result.astraSync.agentId = undefined := by
  have h := registerACPAgent_answered (answering ⟨200, .ok (obj [])⟩) exampleBridge (obj [])
    (assembleParsed (obj []) [str "acp-compliant"]) ⟨200, .ok (obj [])⟩ rfl rfl
  simp only [calculateTrustScore_default, Except.bind] at h
  exact ⟨_, h, rfl⟩

/-! ## Theorems: configuration -/

theorem strOr_some (value fallback : String) (h : value ≠ "") :
    strOr (some value) fallback = value := by
  simp [strOr, h]

/-- C10 (as amended): the constructor resolves the API base URL and the operator
email independently of each other: an explicit non-empty argument is used
whatever the resolver gives; an argument that is omitted or is the empty string
gives the value of the resolver; and when also the environment variable of the
resolver is unset or empty the value is the default, "https://astrasync.ai/api"
or "developer@example.com". -/
theorem constructor_precedence (env : Env) (apiUrl developerEmail : String)
    (hurl : apiUrl ≠ "") (hemail : developerEmail ≠ "") :
    (∀ other, (ACPBridge.constructor env (some apiUrl) other).apiUrl = apiUrl) ∧
    (∀ other, (ACPBridge.constructor env other (some developerEmail)).developerEmail
      = developerEmail) ∧
    (∀ omitted other, omitted = none ∨ omitted = some "" →
      (ACPBridge.constructor env omitted other).apiUrl = config.getApiUrl env) ∧
    (∀ omitted other, omitted = none ∨ omitted = some "" →
      (ACPBridge.constructor env other omitted).developerEmail
        = config.getDeveloperEmail env) ∧
    (env "ASTRASYNC_API_URL" = none ∨ env "ASTRASYNC_API_URL" = some "" →
      ∀ omitted other, omitted = none ∨ omitted = some "" →
        (ACPBridge.constructor env omitted other).apiUrl = "https://astrasync.ai/api") ∧
    (env "DEVELOPER_EMAIL" = none ∨ env "DEVELOPER_EMAIL" = some "" →
      ∀ omitted other, omitted = none ∨ omitted = some "" →
        (ACPBridge.constructor env other omitted).developerEmail
          = "developer@example.com") := by
  refine ⟨?_, ?_, ?_, ?_, ?_, ?_⟩
  · intro other; exact strOr_some _ _ hurl
  · intro other; exact strOr_some _ _ hemail
  · intro omitted other h
    rcases h with h | h <;> subst h <;> rfl
  · intro omitted other h
    rcases h with h | h <;> subst h <;> rfl
  · intro h omitted other ho
    rcases ho with ho | ho <;> subst ho <;>
      rcases h with h | h <;> simp [ACPBridge.constructor, config.getApiUrl, strOr, h]
  · intro h omitted other ho
    rcases ho with ho | ho <;> subst ho <;>
      rcases h with h | h <;> simp [ACPBridge.constructor, config.getDeveloperEmail, strOr, h]

theorem constructor_precedence_witness :
    "http://localhost:3000" ≠ "" ∧ "ops@example.org" ≠ "" ∧
      (ACPBridge.constructor (fun _ => some "from-env") (some "http://localhost:3000")
        (some "ops@example.org")).apiUrl = "http://localhost:3000" ∧
      (ACPBridge.constructor (fun _ => some "from-env") (some "http://localhost:3000")
        (some "ops@example.org")).developerEmail = "ops@example.org" ∧
      (ACPBridge.constructor (fun _ => some "from-env") (some "")
        (some "ops@example.org")).apiUrl = "from-env" ∧
      (ACPBridge.constructor (fun _ => some "from-env") (some "http://localhost:3000")
        (some "")).developerEmail = "from-env" ∧
      (ACPBridge.constructor (fun _ => none) none none).apiUrl = "https://astrasync.ai/api" ∧
      (ACPBridge.constructor (fun _ => none) none none).developerEmail
        = "developer@example.com" :=
  ⟨by decide, by decide,
    (constructor_precedence (fun _ => some "from-env") "http://localhost:3000" "ops@example.org"
      (by decide) (by decide)).1 (some "ops@example.org"),
    (constructor_precedence (fun _ => some "from-env") "http://localhost:3000" "ops@example.org"
      (by decide) (by decide)).2.1 (some "http://localhost:3000"),
    (constructor_precedence (fun _ => some "from-env") "http://localhost:3000" "ops@example.org"
      (by decide) (by decide)).2.2.1 (some "") (some "ops@example.org") (Or.inr rfl),
    (constructor_precedence (fun _ => some "from-env") "http://localhost:3000" "ops@example.org"
      (by decide) (by decide)).2.2.2.1 (some "") (some "http://localhost:3000") (Or.inr rfl),
    (constructor_precedence (fun _ => none) "http://localhost:3000" "ops@example.org"
      (by decide) (by decide)).2.2.2.2.1 (Or.inl rfl) none none (Or.inl rfl),
    (constructor_precedence (fun _ => none) "http://localhost:3000" "ops@example.org"
      (by decide) (by decide)).2.2.2.2.2 (Or.inl rfl) none none (Or.inl rfl)⟩

/-- C10, counterexample: an explicit argument `""` is not used, for the URL and
for the email alike; the instance takes the values of the resolver. -/
theorem constructor_empty_argument :
    (ACPBridge.constructor (fun _ => some "from-env") (some "") (some "")).apiUrl
        = "from-env" ∧
      (ACPBridge.constructor (fun _ => some "from-env") (some "") (some "")).developerEmail
        = "from-env" ∧
      (ACPBridge.constructor (fun _ => some "from-env") (some "") (some "")).apiUrl ≠ "" ∧
      (ACPBridge.constructor (fun _ => some "from-env") (some "") (some "")).developerEmail
        ≠ "" :=
  ⟨rfl, rfl, by decide, by decide⟩

/-- The sibling `verifyAgent` looks at the status before it decodes the body: on a
status that is not success its message embeds the status whatever the body. -/
theorem verifyAgent_rejected (rt : Runtime) (self : ACPBridge) (agentId : String)
    (response : Response)
    (hfetch : rt.fetch (self.apiUrl ++ "/v1/verify/" ++ agentId)
      (obj [("headers", obj [("x-source", str "acp-bridge")])]) = .ok response)
    (hstatus : response.ok = false) :
    verifyAgent rt self (str agentId)
      = .error (.error ("Verification failed: " ++ toString response.status)) := by
  unfold verifyAgent
  simp only [jsToString, hfetch, hstatus, bind, Except.bind, pure, Except.pure]
  rfl

end AstraSync
